import Mathlib

/-!
# adp-openai-gateway: request correlator, chat facade and token cache

A shallow embedding of `internal/adp/client.go` and `internal/token/service.go`.

Conventions of the embedding.

* A Go `string` is a Lean `String`.  Every such string here was decoded from JSON
  (event payloads, chat messages, the vendor token), hence is valid UTF-8; on such
  strings the byte-wise `strings.HasPrefix` is the character-wise test, and the
  byte slice `s[len(p):]`, which the code takes only under `HasPrefix(s, p)`, is `s`
  without its first `p.length` characters.
* An inbound frame is the exception: its bytes come straight from the connection, so
  it is a list of bytes (`Frame`), and the frame tests and `msg[2:]` act on bytes.
* `sync.Map` is an association list.  The order of the list is the (unspecified)
  iteration order of `Range`; `Load` returns the first binding of a key, `Delete`
  removes every binding of it.
* A `*PendingRequest` is identified with the key it is stored under.  Calls of its
  `OnChunk` callback and sends on its `ResultCh` are recorded as a list of `Effect`s,
  in program order.  `ResultCh` has capacity 1 and is sent to only immediately before
  the entry is deleted, so the send never blocks.
-/

namespace ADP

/-! ## Strings -/

/-- Go `strings.HasPrefix(s, p)`. -/
def HasPrefix (s p : String) : Bool := p.data.isPrefixOf s.data

/-- Go `s[n:]`. -/
def sliceFrom (s : String) (n : Nat) : String := ⟨s.data.drop n⟩

/-! ## Data model (`client.go`, lines 17-74) -/

/-- Go `Chunk`; the field `Type` is written `Kind` (`Type` is reserved in Lean). -/
structure Chunk where
  Kind : String
  Content : String
  IsEnd : Bool
deriving DecidableEq, Repr

/-- Go `ChatResult`. -/
structure ChatResult where
  Content : String
  RequestID : String
deriving DecidableEq, Repr

/-- Go `PendingRequest`.  `OnChunk` records whether the callback is non-nil; the
two channels live in the effect trace. -/
structure PendingRequest where
  Stream : Bool
  OnChunk : Bool
  FullContent : String
  LastContent : String
deriving DecidableEq, Repr

/-- The anonymous `wrapper.Payload` struct of `handleEvent`. -/
structure Payload where
  RequestID : String
  Content : String
  CanRating : Bool
  IsFinal : Bool
  Thought : String
deriving DecidableEq, Repr

/-- An observable action of `handleEvent` on the request stored under `key`. -/
inductive Effect where
  /-- The call `req.OnChunk(chunk)`. -/
  | onChunk (key : String) (chunk : Chunk)
  /-- The send `req.ResultCh <- result`. -/
  | result (key : String) (result : ChatResult)
deriving DecidableEq, Repr

/-- The part of Go `Client` that `handleEvent` reads and writes. -/
structure Client where
  pendingRequests : List (String × PendingRequest)
deriving DecidableEq, Repr

/-! ## `sync.Map` -/

/-- Go `m.Load(k)`. -/
def Load : List (String × PendingRequest) → String → Option PendingRequest
  | [], _ => none
  | (k', v) :: rest, k => if k' = k then some v else Load rest k

/-- Go `m.Delete(k)`. -/
def Delete : List (String × PendingRequest) → String → List (String × PendingRequest)
  | [], _ => []
  | (k', v) :: rest, k => if k' = k then Delete rest k else (k', v) :: Delete rest k

/-- Go `m.Store(k, v)`. -/
def Store : List (String × PendingRequest) → String → PendingRequest →
    List (String × PendingRequest)
  | [], k, v => [(k, v)]
  | (k', v') :: rest, k, v =>
    if k' = k then (k, v) :: rest else (k', v') :: Store rest k v

/-- A write through the pointer stored under `k`: the first binding of `k` gets the
new field values; a map without `k` is left as it is. -/
def writeThrough : List (String × PendingRequest) → String → PendingRequest →
    List (String × PendingRequest)
  | [], _, _ => []
  | (k', v') :: rest, k, v =>
    if k' = k then (k, v) :: rest else (k', v') :: writeThrough rest k v

/-- Lines 244-256 of `handleEvent`: `Load(requestID)`, and when that misses, the first
entry `Range` visits (the callback returns `false` at once), whose key replaces
`requestID`. -/
def findRequest (m : List (String × PendingRequest)) (requestID : String) :
    Option (String × PendingRequest) :=
  match Load m requestID with
  | some req => some (requestID, req)
  | none => m.head?

/-- The key of the pending entry an event with this request id is applied to. -/
def targetKey (m : List (String × PendingRequest)) (requestID : String) : Option String :=
  (findRequest m requestID).map Prod.fst

/-! ## `handleEvent` (`client.go`, lines 224-320) -/

/-- Lines 276-279: the local `newContent`. -/
def newContent (req : PendingRequest) (payload : Payload) : String :=
  if req.FullContent ≠ "" ∧ HasPrefix payload.Content req.FullContent = true then
    sliceFrom payload.Content req.FullContent.length
  else payload.Content

/-- Lines 274-291: the streaming branch of a rated reply.  Returns the request with
`LastContent` updated and the chunks passed to `OnChunk`. -/
def streamDelta (req : PendingRequest) (requestID : String) (payload : Payload) :
    PendingRequest × List Effect :=
  if req.Stream && req.OnChunk then
    if payload.Content ≠ "" ∧ payload.Content ≠ req.LastContent then
      ({ req with LastContent := payload.Content },
        if newContent req payload ≠ "" then
          [Effect.onChunk requestID ⟨"content", newContent req payload, payload.IsFinal⟩]
        else [])
    else (req, [])
  else (req, [])

/-- Lines 293-295: `FullContent` follows every non-empty content. -/
def setFullContent (req : PendingRequest) (payload : Payload) : PendingRequest :=
  if payload.Content ≠ "" then { req with FullContent := payload.Content } else req

/-- Lines 301-308: the terminal signal of a request. -/
def terminalSignal (req : PendingRequest) (requestID : String) : List Effect :=
  if !req.Stream then
    [Effect.result requestID ⟨req.FullContent, requestID⟩]
  else if req.OnChunk then
    [Effect.onChunk requestID ⟨"done", "", false⟩]
  else []

/-- Go `handleEvent(eventType, data)`.  `data` is the outcome of `json.Unmarshal` into
`wrapper`: `none` when it fails. -/
def handleEvent (c : Client) (eventType : String) (data : Option Payload) :
    Client × List Effect :=
  match data with
  | none => (c, [])
  | some payload =>
    match findRequest c.pendingRequests payload.RequestID with
    | none => (c, [])
    | some (requestID, req) =>
      if eventType = "reply" then
        if !payload.CanRating then (c, [])
        else
          let step := streamDelta req requestID payload
          let req' := setFullContent step.1 payload
          let m := writeThrough c.pendingRequests requestID req'
          if payload.CanRating && payload.IsFinal then
            (⟨Delete m requestID⟩, step.2 ++ terminalSignal req' requestID)
          else (⟨m⟩, step.2)
      else if eventType = "thought" then
        if req.Stream && req.OnChunk && decide (payload.Thought ≠ "") then
          (c, [Effect.onChunk requestID ⟨"thought", payload.Thought, false⟩])
        else (c, [])
      else (c, [])

/-- The read loop applying a sequence of decoded events, effects in order. -/
def handleEvents (c : Client) : List (String × Option Payload) → Client × List Effect
  | [] => (c, [])
  | (eventType, data) :: rest =>
    let r := handleEvent c eventType data
    let r' := handleEvents r.1 rest
    (r'.1, r.2 ++ r'.2)

/-- The chunks of kind `"content"` in an effect trace, each with the key of the
request whose `OnChunk` received it. -/
def contentChunks : List Effect → List (String × Chunk)
  | [] => []
  | Effect.onChunk key ch :: rest =>
    if ch.Kind = "content" then (key, ch) :: contentChunks rest else contentChunks rest
  | Effect.result _ _ :: rest => contentChunks rest

/-- A reply payload carrying `content` for request `id`. -/
def reply (id content : String) (canRating isFinal : Bool) : Payload :=
  ⟨id, content, canRating, isFinal, ""⟩

/-- A request as `Chat` registers it (lines 368-373). -/
def newRequest (stream onChunk : Bool) : PendingRequest :=
  ⟨stream, onChunk, "", ""⟩

/-- The key of the request an effect acts on. -/
def Effect.key : Effect → String
  | Effect.onChunk key _ => key
  | Effect.result key _ => key

/-- The terminal signals in an effect trace: sends on a result channel and chunks of
kind `"done"`. -/
def terminalSignals : List Effect → List Effect
  | [] => []
  | Effect.onChunk key ch :: rest =>
    if ch.Kind = "done" then Effect.onChunk key ch :: terminalSignals rest
    else terminalSignals rest
  | Effect.result key r :: rest => Effect.result key r :: terminalSignals rest

/-- The latest cumulative content after the replies `evs`, starting from `init`: the
content of the last rated reply with a non-empty content, `init` when there is none. -/
def latestContent (init : String) : List Payload → String
  | [] => init
  | e :: rest =>
    latestContent (if e.CanRating = true ∧ e.Content ≠ "" then e.Content else init) rest

/-- The read loop's input for a sequence of `reply` payloads. -/
def replies (evs : List Payload) : List (String × Option Payload) :=
  evs.map (fun e => ("reply", some e))

/-- The values sent on the `ResultCh` of the request stored under `key`. -/
def resultChannel (key : String) : List Effect → List ChatResult
  | [] => []
  | Effect.onChunk _ _ :: rest => resultChannel key rest
  | Effect.result k r :: rest =>
    if k = key then r :: resultChannel key rest else resultChannel key rest

/-- Lines 395-416 of `Chat`: the `select` over `time.After(timeout)`, `req.ErrorCh` and
`req.ResultCh`; the streaming and the non-streaming `select` have the same three cases.
`errorCh` and `resultCh` are what the two channels deliver before the timeout elapses,
at most one of them being ready (nothing in `client.go` sends on `ErrorCh`). -/
def awaitResponse (errorCh : Option String) (resultCh : Option ChatResult) :
    Except String ChatResult :=
  match errorCh, resultCh with
  | some err, _ => Except.error err
  | none, some result => Except.ok result
  | none, none => Except.error "请求超时"

/-! ## `Chat`: outbound text (`client.go`, lines 334-351) -/

/-- The dynamic value of a Go `any`, as far as the type switch of `Chat` and the type
assertions inside it look: a `string`, a `[]interface{}`, a `map[string]interface{}`
(an association list, `p[key]` being the first binding), or a value of another type
(`nil`, `float64`, `bool`, a typed slice, and so on). -/
inductive GoAny where
  | str (s : String)
  | slice (elems : List GoAny)
  | map (fields : List (String × GoAny))
  | other

/-- Go `Message`. -/
structure Message where
  Role : String
  Content : GoAny

/-- Go `p[key]` on a `map[string]interface{}`; `none` is the nil interface of a
missing key. -/
def mapIndex : List (String × GoAny) → String → Option GoAny
  | [], _ => none
  | (k, v) :: rest, key => if k = key then some v else mapIndex rest key

/-- The comparison `p["type"] == "text"`: true when the interface holds the string
"text". -/
def isTextType : Option GoAny → Bool
  | some (GoAny.str s) => decide (s = "text")
  | _ => false

/-- Lines 343-349: the body of the loop over the parts; `content` is the accumulator. -/
def appendPart (content : String) (part : GoAny) : String :=
  match part with
  | GoAny.map p =>
    if isTextType (mapIndex p "type") then
      match mapIndex p "text" with
      | some (GoAny.str text) => content ++ text
      | _ => content
    else content
  | _ => content

/-- Lines 336-351: the type switch on `lastMsg.Content`. -/
def extractContent (v : GoAny) : String :=
  match v with
  | GoAny.str s => s
  | GoAny.slice parts => parts.foldl appendPart ""
  | _ => ""

/-- Lines 335-351: `messages[len(messages)-1]` and the extraction; `none` is the
index-out-of-range failure on an empty list. -/
def outboundContent (messages : List Message) : Option String :=
  match messages.getLast? with
  | none => none
  | some lastMsg => some (extractContent lastMsg.Content)

/-- The text a part contributes, in the words of the specification, stated with the
library's `List.lookup` and independently of the code above: a part whose type is "text"
contributes its text (nothing when it carries no text string), every other kind of part
contributes no text at all. -/
def textOfPart : GoAny → Option String
  | GoAny.map fields =>
    match List.lookup "type" fields with
    | some (GoAny.str kind) =>
      if kind = "text" then
        match List.lookup "text" fields with
        | some (GoAny.str text) => some text
        | _ => some ""
      else none
    | _ => none
  | _ => none

/-- The texts of exactly the parts whose type is "text", in list order. -/
def textsOfParts (parts : List GoAny) : List String :=
  parts.filterMap textOfPart

/-- Concatenation in list order, without separators. -/
def concatAll : List String → String
  | [] => ""
  | s :: rest => s ++ concatAll rest

/-! ## Token service (`service.go`, lines 18-118) -/

/-- Go `Service`.  `expireTime` is an instant in nanoseconds on the clock that
`time.Now()` reads. -/
structure Service where
  secretId : String
  secretKey : String
  botAppKey : String
  cachedToken : String
  expireTime : Int
deriving DecidableEq, Repr

/-- The `Error` struct of the vendor response. -/
structure VendorError where
  Code : String
  Message : String
deriving DecidableEq, Repr

/-- The `Response` struct that `json.Unmarshal` fills (lines 95-103); `Error` is a
pointer, `none` being nil. -/
structure TokenResponse where
  Token : String
  Error : Option VendorError
deriving DecidableEq, Repr

/-- What the HTTP exchange of lines 80-105 yields. -/
inductive HttpOutcome where
  /-- The call `client.Do(req)` fails with this error text. -/
  | doError (err : String)
  /-- The call `io.ReadAll(resp.Body)` fails with this error text. -/
  | readError (status : Nat) (err : String)
  /-- A response with this status code; `decoded` is the outcome of `json.Unmarshal`
  on its body, either an error text or the filled struct. -/
  | response (status : Nat) (decoded : Except String TokenResponse)

/-- Go `time.Second`, in nanoseconds. -/
def Second : Int := 1000000000

/-- Go `time.Minute`. -/
def Minute : Int := 60 * Second

/-- The test of lines 40 and 52:
`s.cachedToken != "" && time.Now().Add(30*time.Second).Before(s.expireTime)`. -/
def cacheFresh (s : Service) (now : Int) : Bool :=
  decide (s.cachedToken ≠ "") && decide (now + 30 * Second < s.expireTime)

/-- The outcome of one call of `GetWsToken`. -/
structure TokenCall where
  /-- The returned pair: `Except.ok token` for `(token, nil)`, `Except.error text` for
  `("", err)`. -/
  result : Except String String
  /-- The service afterwards. -/
  service : Service
  /-- How many HTTP requests were issued. -/
  httpCalls : Nat

/-- Go `GetWsToken`.  `now₁`, `now₂` and `now₃` are the readings of `time.Now()` at
lines 40, 52 and 114; `http` is what the vendor answers if asked.  Marshalling the
request body and building the request (lines 66-74) cannot fail for the fixed payload
and URL. -/
def GetWsToken (s : Service) (now₁ now₂ now₃ : Int) (http : HttpOutcome) : TokenCall :=
  if cacheFresh s now₁ then ⟨Except.ok s.cachedToken, s, 0⟩
  else if cacheFresh s now₂ then ⟨Except.ok s.cachedToken, s, 0⟩
  else
    match http with
    | HttpOutcome.doError err => ⟨Except.error ("请求失败: " ++ err), s, 1⟩
    | HttpOutcome.readError _ err => ⟨Except.error ("读取响应失败: " ++ err), s, 1⟩
    | HttpOutcome.response _ (Except.error err) =>
      ⟨Except.error ("解析响应失败: " ++ err), s, 1⟩
    | HttpOutcome.response _ (Except.ok result) =>
      match result.Error with
      | some e => ⟨Except.error ("API错误: " ++ e.Code ++ " - " ++ e.Message), s, 1⟩
      | none =>
        ⟨Except.ok result.Token,
          { s with cachedToken := result.Token,
                   expireTime := now₃ + (4 * Minute + 30 * Second) }, 1⟩

/-! ## Auth frame (`client.go`, lines 129-136) -/

/-- Line 131: the `authMsg` built by `fmt.Sprintf` from the pattern "40", an opening
brace, `"token":"%s"` and a closing brace; `%s` inserts the token as it is. -/
def authMsg (wsToken : String) : String :=
  "40\x7b\"token\":\"" ++ wsToken ++ "\"\x7d"

/-- The double quote. -/
def quoteChar : Char := Char.ofNat 34

/-- The backslash. -/
def escapeChar : Char := Char.ofNat 92

/-- The value of a hexadecimal digit. -/
def hexDigit (c : Char) : Option Nat :=
  if 48 ≤ c.toNat ∧ c.toNat ≤ 57 then some (c.toNat - 48)
  else if 97 ≤ c.toNat ∧ c.toNat ≤ 102 then some (c.toNat - 87)
  else if 65 ≤ c.toNat ∧ c.toNat ≤ 70 then some (c.toNat - 55)
  else none

/-- The code point of four hexadecimal digits. -/
def hex4 (a b c d : Char) : Option Nat :=
  match hexDigit a, hexDigit b, hexDigit c, hexDigit d with
  | some x, some y, some z, some w => some (((x * 16 + y) * 16 + z) * 16 + w)
  | _, _, _, _ => none

/-- The character a two-character JSON escape stands for. -/
def unescape (e : Char) : Option Char :=
  if e = quoteChar then some quoteChar
  else if e = escapeChar then some escapeChar
  else if e = Char.ofNat 47 then some (Char.ofNat 47)
  else if e = Char.ofNat 98 then some (Char.ofNat 8)
  else if e = Char.ofNat 102 then some (Char.ofNat 12)
  else if e = Char.ofNat 110 then some (Char.ofNat 10)
  else if e = Char.ofNat 114 then some (Char.ofNat 13)
  else if e = Char.ofNat 116 then some (Char.ofNat 9)
  else none

/-- Decoder of a JSON string literal (RFC 8259, section 7) whose opening quote has been
read: the decoded characters up to the closing quote and the input after it; `none` on
an unescaped control character, an unknown escape or a missing closing quote.  A
`\u` escape denotes the character of its four hexadecimal digits. -/
def jsonStringLit : List Char → List Char → Option (String × List Char)
  | [], _ => none
  | c :: rest, acc =>
    if c = quoteChar then some (String.mk acc.reverse, rest)
    else if c = escapeChar then
      match rest with
      | [] => none
      | e :: rest' =>
        if e = Char.ofNat 117 then
          match rest' with
          | h₁ :: h₂ :: h₃ :: h₄ :: rest'' =>
            match hex4 h₁ h₂ h₃ h₄ with
            | some n => jsonStringLit rest'' (Char.ofNat n :: acc)
            | none => none
          | _ => none
        else
          match unescape e with
          | some ch => jsonStringLit rest' (ch :: acc)
          | none => none
    else if c.toNat < 32 then none
    else jsonStringLit rest (c :: acc)

/-- The input after the literal text `lit`, `none` when the input does not start
with it. -/
def expectLit : List Char → List Char → Option (List Char)
  | [], input => some input
  | _ :: _, [] => none
  | l :: lit, c :: input => if l = c then expectLit lit input else none

/-- JSON decoding of a text made of an object with the single member "token", a
string, written without insignificant white space: the value of the member. -/
def decodeTokenObject (json : List Char) : Option String :=
  match expectLit "\x7b\"token\":\"".data json with
  | none => none
  | some rest =>
    match jsonStringLit rest [] with
    | some (token, [close]) => if close = Char.ofNat 125 then some token else none
    | _ => none

/-- What the receiver of an auth frame reads: the leading "40" stripped and the
remainder decoded as JSON. -/
def decodeAuthFrame (frame : String) : Option String :=
  match expectLit "40".data frame.data with
  | none => none
  | some rest => decodeTokenObject rest

/-! ## Session: inbound frames (`client.go`, lines 118-222) -/

/-- An inbound frame: the bytes `conn.ReadMessage` returns, read as `string(message)`.
Nothing guarantees that they are valid UTF-8, so a frame is a list of bytes. -/
abbrev Frame := List UInt8

/-- Go `strings.HasPrefix(msg, lit)` on bytes. -/
def frameHasPrefix (msg lit : Frame) : Bool := lit.isPrefixOf msg

/-- Go `msg[n:]`; `none` is the run-time failure "slice bounds out of range". -/
def sliceFrame (msg : Frame) (n : Nat) : Option Frame :=
  if n ≤ msg.length then some (msg.drop n) else none

/-- Line 129: `msg == "0" || strings.HasPrefix(msg, "0{")`. -/
def isOpenFrame (msg : Frame) : Bool :=
  decide (msg = [48]) || frameHasPrefix msg [48, 123]

/-- Line 137: `msg == "40" || strings.HasPrefix(msg, "40{")`. -/
def isAckFrame (msg : Frame) : Bool :=
  decide (msg = [52, 48]) || frameHasPrefix msg [52, 48, 123]

/-- Line 146: `strings.HasPrefix(msg, "44")`. -/
def isErrorFrame (msg : Frame) : Bool := frameHasPrefix msg [52, 52]

/-- Line 176: `msg == "2"`. -/
def isPingFrame (msg : Frame) : Bool := decide (msg = [50])

/-- Line 179: `strings.HasPrefix(msg, "42")`. -/
def isEventFrame (msg : Frame) : Bool := frameHasPrefix msg [52, 50]

/-- A value sent on the channel `authDone`. -/
inductive AuthDone where
  /-- The send `authDone <- nil` of line 141. -/
  | ok
  /-- Line 134: writing the auth frame failed with this error text. -/
  | sendFailed (err : String)
  /-- Line 148: the error frame's detail `msg[2:]`. -/
  | connectError (detail : Frame)
deriving DecidableEq, Repr

/-- The state the two read loops act on: the client's pending map, the flag
`isAuthenticated`, the calls of `conn.WriteMessage` and the sends on `authDone`, both in
order, and the effects of the dispatched events. -/
structure Session where
  client : Client
  isAuthenticated : Bool
  writes : List String
  authDone : List AuthDone
  effects : List Effect
deriving DecidableEq, Repr

/-- How the handshake goroutine goes on after a frame. -/
inductive Next where
  /-- Back to `conn.ReadMessage` (the `for` of line 119). -/
  | read
  /-- The call `c.handleMessages()` of line 144. -/
  | steady
  /-- A `return`. -/
  | stop
deriving DecidableEq, Repr

/-- Lines 129-150: what the handshake loop does with one frame.  `writeErr` is the
result of `conn.WriteMessage`, `none` being nil.  The outer `none` is a run-time
failure. -/
def handshakeFrame (wsToken : String) (writeErr : Option String) (s : Session)
    (msg : Frame) : Option (Session × Next) :=
  if isOpenFrame msg then
    match writeErr with
    | some err =>
      some ({ s with writes := s.writes ++ [authMsg wsToken],
                     authDone := s.authDone ++ [AuthDone.sendFailed err] }, Next.stop)
    | none => some ({ s with writes := s.writes ++ [authMsg wsToken] }, Next.read)
  else if isAckFrame msg then
    some ({ s with isAuthenticated := true, authDone := s.authDone ++ [AuthDone.ok] },
      Next.steady)
  else if isErrorFrame msg then
    match sliceFrame msg 2 with
    | none => none
    | some detail =>
      some ({ s with authDone := s.authDone ++ [AuthDone.connectError detail] }, Next.stop)
  else some (s, Next.read)

/-- Go `strings.Index(content, "[")`; `none` is the result -1. -/
def bracketIndex : Frame → Option Nat
  | [] => none
  | b :: rest => if b = 91 then some 0 else (bracketIndex rest).map (· + 1)

/-- Lines 186-222, `handleSocketIOMessage`.  `unmarshal content` is the outcome of the
`json.Unmarshal` calls on `content`: `none` when it is not an array of at least two
elements whose first is a string, otherwise the event name and the decoding of the
second element into `wrapper` (`none` when that fails). -/
def handleSocketIOMessage (unmarshal : Frame → Option (String × Option Payload))
    (s : Session) (msg : Frame) : Option Session :=
  match sliceFrame msg 2 with
  | none => none
  | some content =>
    let content' :=
      match bracketIndex content with
      | some (n + 1) => content.drop (n + 1)
      | _ => content
    match unmarshal content' with
    | none => some s
    | some (eventName, data) =>
      if eventName = "reply" ∨ eventName = "thought" then
        some { s with client := (handleEvent s.client eventName data).1,
                      effects := s.effects ++ (handleEvent s.client eventName data).2 }
      else some s

/-- Lines 173-181: what the steady-state loop `handleMessages` does with one frame. -/
def handleMessagesFrame (unmarshal : Frame → Option (String × Option Payload))
    (s : Session) (msg : Frame) : Option Session :=
  if isPingFrame msg then some { s with writes := s.writes ++ ["3"] }
  else if isEventFrame msg then handleSocketIOMessage unmarshal s msg
  else some s

/-- The five kinds of frame the session tests for. -/
inductive FrameKind where
  | openPacket
  | ack
  | connectError
  | ping
  | event
deriving DecidableEq, Repr

/-- The test of each kind. -/
def FrameKind.test : FrameKind → Frame → Bool
  | FrameKind.openPacket => isOpenFrame
  | FrameKind.ack => isAckFrame
  | FrameKind.connectError => isErrorFrame
  | FrameKind.ping => isPingFrame
  | FrameKind.event => isEventFrame

/-- Classification trying the tests in the given order: the first kind whose test
holds, `none` for an unrecognized frame. -/
def classifyWith (order : List FrameKind) (msg : Frame) : Option FrameKind :=
  order.find? (fun k => k.test msg)

/-- The branch the handshake loop takes for a frame of the given kind. -/
def handshakeBranch (wsToken : String) (writeErr : Option String) (s : Session)
    (msg : Frame) : Option FrameKind → Option (Session × Next)
  | some FrameKind.openPacket =>
    match writeErr with
    | some err =>
      some ({ s with writes := s.writes ++ [authMsg wsToken],
                     authDone := s.authDone ++ [AuthDone.sendFailed err] }, Next.stop)
    | none => some ({ s with writes := s.writes ++ [authMsg wsToken] }, Next.read)
  | some FrameKind.ack =>
    some ({ s with isAuthenticated := true, authDone := s.authDone ++ [AuthDone.ok] },
      Next.steady)
  | some FrameKind.connectError =>
    some ({ s with authDone := s.authDone ++ [AuthDone.connectError (msg.drop 2)] },
      Next.stop)
  | _ => some (s, Next.read)

/-- The branch the steady-state loop takes for a frame of the given kind. -/
def handleMessagesBranch (unmarshal : Frame → Option (String × Option Payload))
    (s : Session) (msg : Frame) : Option FrameKind → Option Session
  | some FrameKind.ping => some { s with writes := s.writes ++ ["3"] }
  | some FrameKind.event => handleSocketIOMessage unmarshal s msg
  | _ => some s

/-- The leading bytes every frame of a kind starts with: "0", "40", "44", "2", "42". -/
def FrameKind.lead : FrameKind → Frame
  | FrameKind.openPacket => [48]
  | FrameKind.ack => [52, 48]
  | FrameKind.connectError => [52, 52]
  | FrameKind.ping => [50]
  | FrameKind.event => [52, 50]

/-! ## Streaming run of one request -/

/-- Lines 274-295 as they act on the request object `req` points to: the object
afterwards and the chunks passed to its callback. -/
def applyReply (req : PendingRequest) (requestID : String) (payload : Payload) :
    PendingRequest × List Effect :=
  (setFullContent (streamDelta req requestID payload).1 payload,
    (streamDelta req requestID payload).2)

/-- Lines 274-295 applied for each reply of a sequence in turn. -/
def applyReplies (req : PendingRequest) (requestID : String) :
    List Payload → PendingRequest × List Effect
  | [] => (req, [])
  | p :: rest =>
    ((applyReplies (applyReply req requestID p).1 requestID rest).1,
      (applyReply req requestID p).2 ++
        (applyReplies (applyReply req requestID p).1 requestID rest).2)

/-- Every non-empty content of the sequence starts with the previous non-empty content,
`prev` being the one before the sequence. -/
def cumulative (prev : String) : List Payload → Bool
  | [] => true
  | e :: rest =>
    if e.Content = "" then cumulative prev rest
    else HasPrefix e.Content prev && cumulative e.Content rest

/-- The texts of the content chunks of an effect trace, in order. -/
def contentTexts (out : List Effect) : List String :=
  (contentChunks out).map (fun kc => kc.2.Content)

/-! ## Correlation -/

/-- What it is for `handleEvent` to apply the event `p` of type `eventType` to the
pending entry `(k, req)` of client `c` and to no other entry:
* every other key keeps its binding, and every effect acts on `k`;
* the effects, and the binding of `k` afterwards, are those of the same event handled
  by a client whose only pending entry is `(k, req)`;
* a rated reply passes `req`'s callback the chunks of lines 274-295, leaves `k` bound
  to the updated request when it is not final, and when it is final sends the
  terminal signal last and removes `k`; every result sent then is on `k`'s channel and
  reports `k`, and for a non-streaming request it is the only effect;
* a thought event leaves `k` bound to `req` and passes the callback of a streaming
  `req` the non-empty thought, nothing otherwise. -/
@[reducible] def HandledAgainst (c : Client) (eventType : String) (p : Payload) (k : String)
    (req : PendingRequest) : Prop :=
  (∀ k', k' ≠ k →
    Load (handleEvent c eventType (some p)).1.pendingRequests k' =
      Load c.pendingRequests k') ∧
  (∀ e ∈ (handleEvent c eventType (some p)).2, e.key = k) ∧
  (handleEvent c eventType (some p)).2 =
    (handleEvent ⟨[(k, req)]⟩ eventType (some p)).2 ∧
  Load (handleEvent c eventType (some p)).1.pendingRequests k =
    Load (handleEvent ⟨[(k, req)]⟩ eventType (some p)).1.pendingRequests k ∧
  (eventType = "reply" → p.CanRating = true →
    (handleEvent c eventType (some p)).2 =
      (applyReply req k p).2 ++
        (if p.IsFinal = true then terminalSignal (applyReply req k p).1 k else []) ∧
    Load (handleEvent c eventType (some p)).1.pendingRequests k =
      (if p.IsFinal = true then none else some (applyReply req k p).1)) ∧
  (eventType = "reply" → p.CanRating = true → p.IsFinal = true →
    (∀ key r, Effect.result key r ∈ (handleEvent c eventType (some p)).2 →
      key = k ∧ r.RequestID = k) ∧
    (req.Stream = false →
      ∃ content, (handleEvent c eventType (some p)).2 = [Effect.result k ⟨content, k⟩])) ∧
  (eventType = "thought" →
    Load (handleEvent c eventType (some p)).1.pendingRequests k = some req ∧
    (handleEvent c eventType (some p)).2 =
      if req.Stream = true ∧ req.OnChunk = true ∧ p.Thought ≠ "" then
        [Effect.onChunk k ⟨"thought", p.Thought, false⟩]
      else [])

/-! ## Lemmas on strings and on the map -/

theorem HasPrefix_iff (s p : String) : HasPrefix s p = true ↔ ∃ t, s = p ++ t := by
  unfold HasPrefix
  rw [List.isPrefixOf_iff_prefix]
  constructor
  · rintro ⟨t, ht⟩
    exact ⟨⟨t⟩, String.ext (by simp [String.data_append, ht])⟩
  · rintro ⟨t, rfl⟩
    exact ⟨t.data, by simp [String.data_append]⟩

theorem sliceFrom_append (p t : String) : sliceFrom (p ++ t) p.length = t := by
  apply String.ext
  show (p ++ t).data.drop p.data.length = t.data
  rw [String.data_append, List.drop_left]

theorem contentChunks_append (xs ys : List Effect) :
    contentChunks (xs ++ ys) = contentChunks xs ++ contentChunks ys := by
  induction xs with
  | nil => rfl
  | cons x xs ih =>
    cases x with
    | onChunk key ch =>
      by_cases h : ch.Kind = "content" <;> simp [contentChunks, h, ih]
    | result key r => simp [contentChunks, ih]

theorem contentChunks_terminalSignal (req : PendingRequest) (k : String) :
    contentChunks (terminalSignal req k) = [] := by
  unfold terminalSignal
  cases req.Stream <;> cases req.OnChunk <;> simp [contentChunks]

theorem contentChunks_handleEvent_reply (c : Client) (k : String) (req : PendingRequest)
    (p : Payload) (hfind : findRequest c.pendingRequests p.RequestID = some (k, req))
    (hcr : p.CanRating = true) :
    contentChunks (handleEvent c "reply" (some p)).2 =
      contentChunks (streamDelta req k p).2 := by
  simp only [handleEvent, hfind, hcr]
  cases hf : p.IsFinal <;>
    simp [contentChunks_append, contentChunks_terminalSignal]

theorem streamDelta_emits (req : PendingRequest) (k : String) (p : Payload)
    (hs : req.Stream = true) (hcb : req.OnChunk = true)
    (hne : p.Content ≠ "" ∧ p.Content ≠ req.LastContent) :
    (streamDelta req k p).2 =
      if newContent req p ≠ "" then
        [Effect.onChunk k ⟨"content", newContent req p, p.IsFinal⟩]
      else [] := by
  unfold streamDelta
  rw [if_pos (by simp [hs, hcb]), if_pos hne]

theorem streamDelta_skips (req : PendingRequest) (k : String) (p : Payload)
    (hno : ¬ (p.Content ≠ "" ∧ p.Content ≠ req.LastContent)) :
    streamDelta req k p = (req, []) := by
  unfold streamDelta
  rw [if_neg hno]
  split <;> rfl

theorem findRequest_of_Load (m : List (String × PendingRequest)) (k : String)
    (req : PendingRequest) (h : Load m k = some req) : findRequest m k = some (k, req) := by
  simp [findRequest, h]

theorem Load_writeThrough_self (m : List (String × PendingRequest)) (k : String)
    (req v : PendingRequest) (h : Load m k = some req) :
    Load (writeThrough m k v) k = some v := by
  induction m with
  | nil => simp [Load] at h
  | cons e rest ih =>
    obtain ⟨k', v'⟩ := e
    by_cases hk : k' = k
    · simp [writeThrough, Load, hk]
    · simp only [Load, hk, if_false] at h
      simp [writeThrough, Load, hk, ih h]

theorem Load_writeThrough_other (m : List (String × PendingRequest)) (k k' : String)
    (v : PendingRequest) (h : k' ≠ k) :
    Load (writeThrough m k v) k' = Load m k' := by
  induction m with
  | nil => rfl
  | cons e rest ih =>
    obtain ⟨k₀, v₀⟩ := e
    by_cases hk : k₀ = k
    · subst hk
      have : ¬ k₀ = k' := fun h' => h h'.symm
      simp [writeThrough, Load, this]
    · by_cases hk' : k₀ = k'
      · subst hk'
        simp [writeThrough, Load, hk]
      · simp [writeThrough, Load, hk, hk', ih]

theorem Load_Delete_self (m : List (String × PendingRequest)) (k : String) :
    Load (Delete m k) k = none := by
  induction m with
  | nil => rfl
  | cons e rest ih =>
    obtain ⟨k₀, v₀⟩ := e
    by_cases hk : k₀ = k
    · simp [Delete, hk, ih]
    · simp [Delete, Load, hk, ih]

theorem Load_Delete_other (m : List (String × PendingRequest)) (k k' : String)
    (h : k' ≠ k) : Load (Delete m k) k' = Load m k' := by
  induction m with
  | nil => rfl
  | cons e rest ih =>
    obtain ⟨k₀, v₀⟩ := e
    by_cases hk : k₀ = k
    · subst hk
      have : ¬ k₀ = k' := fun h' => h h'.symm
      simp [Delete, Load, this, ih]
    · by_cases hk' : k₀ = k'
      · subst hk'
        simp [Delete, Load, hk]
      · simp [Delete, Load, hk, hk', ih]

theorem findRequest_mem (m : List (String × PendingRequest)) (id k : String)
    (req : PendingRequest) (h : findRequest m id = some (k, req)) :
    Load m k = some req := by
  unfold findRequest at h
  cases hl : Load m id with
  | some r =>
    rw [hl] at h
    simp only [Option.some.injEq, Prod.mk.injEq] at h
    rw [← h.1, ← h.2]; exact hl
  | none =>
    rw [hl] at h
    cases m with
    | nil => simp at h
    | cons e rest =>
      simp only [List.head?_cons, Option.some.injEq] at h
      subst h
      simp [Load]

theorem handleEvent_reply_rated (c : Client) (k : String) (req : PendingRequest)
    (p : Payload) (hfind : findRequest c.pendingRequests p.RequestID = some (k, req))
    (hcr : p.CanRating = true) :
    handleEvent c "reply" (some p) =
      if p.IsFinal = true then
        (⟨Delete (writeThrough c.pendingRequests k
            (setFullContent (streamDelta req k p).1 p)) k⟩,
          (streamDelta req k p).2 ++
            terminalSignal (setFullContent (streamDelta req k p).1 p) k)
      else
        (⟨writeThrough c.pendingRequests k (setFullContent (streamDelta req k p).1 p)⟩,
          (streamDelta req k p).2) := by
  simp only [handleEvent, hfind, hcr]
  cases p.IsFinal <;> simp

theorem handleEvent_echo (c : Client) (p : Payload) (hcr : p.CanRating = false) :
    handleEvent c "reply" (some p) = (c, []) := by
  rcases h : findRequest c.pendingRequests p.RequestID with _ | ⟨k, r⟩ <;>
    simp [handleEvent, h, hcr]

theorem streamDelta_fst_Stream (req : PendingRequest) (k : String) (p : Payload) :
    (streamDelta req k p).1.Stream = req.Stream ∧
      (streamDelta req k p).1.OnChunk = req.OnChunk ∧
      (streamDelta req k p).1.FullContent = req.FullContent := by
  unfold streamDelta
  split
  · split <;> simp
  · simp

theorem streamDelta_key (req : PendingRequest) (k : String) (p : Payload) :
    ∀ e ∈ (streamDelta req k p).2, ∃ ch, e = Effect.onChunk k ch ∧ ch.Kind = "content" := by
  intro e he
  unfold streamDelta at he
  by_cases h1 : (req.Stream && req.OnChunk) = true
  · rw [if_pos h1] at he
    by_cases h2 : p.Content ≠ "" ∧ p.Content ≠ req.LastContent
    · rw [if_pos h2] at he
      by_cases h3 : newContent req p ≠ ""
      · simp only [if_pos h3, List.mem_singleton] at he
        exact ⟨_, he, rfl⟩
      · rw [if_neg h3] at he; cases he
    · rw [if_neg h2] at he; cases he
  · rw [if_neg h1] at he; cases he

theorem streamDelta_nonstream (req : PendingRequest) (k : String) (p : Payload)
    (hs : req.Stream = false) : streamDelta req k p = (req, []) := by
  simp [streamDelta, hs]

theorem setFullContent_fields (req : PendingRequest) (p : Payload) :
    (setFullContent req p).Stream = req.Stream ∧
      (setFullContent req p).OnChunk = req.OnChunk ∧
      (setFullContent req p).FullContent =
        if p.Content ≠ "" then p.Content else req.FullContent := by
  unfold setFullContent
  by_cases h : p.Content ≠ ""
  · rw [if_pos h, if_pos h]; exact ⟨rfl, rfl, rfl⟩
  · rw [if_neg h, if_neg h]; exact ⟨rfl, rfl, rfl⟩

theorem terminalSignals_append (xs ys : List Effect) :
    terminalSignals (xs ++ ys) = terminalSignals xs ++ terminalSignals ys := by
  induction xs with
  | nil => rfl
  | cons x xs ih =>
    cases x with
    | onChunk key ch =>
      by_cases h : ch.Kind = "done" <;> simp [terminalSignals, h, ih]
    | result key r => simp [terminalSignals, ih]

theorem terminalSignals_streamDelta (req : PendingRequest) (k : String) (p : Payload) :
    terminalSignals (streamDelta req k p).2 = [] := by
  have hk := streamDelta_key req k p
  generalize (streamDelta req k p).2 = out at hk
  induction out with
  | nil => rfl
  | cons e rest ih =>
    obtain ⟨ch, he, hc⟩ := hk e (List.mem_cons_self _ _)
    subst he
    have hne : ¬ ch.Kind = "done" := by rw [hc]; decide
    simp only [terminalSignals, if_neg hne]
    exact ih (fun e' he' => hk e' (List.mem_cons_of_mem _ he'))

theorem handleEvent_frame (c : Client) (eventType : String) (p : Payload) (k : String)
    (req : PendingRequest)
    (hfind : findRequest c.pendingRequests p.RequestID = some (k, req)) :
    (∀ k', k' ≠ k →
      Load (handleEvent c eventType (some p)).1.pendingRequests k' =
        Load c.pendingRequests k') ∧
    (∀ e ∈ (handleEvent c eventType (some p)).2, e.key = k) := by
  by_cases het : eventType = "reply"
  · subst het
    cases hcr : p.CanRating with
    | false =>
      rw [handleEvent_echo c p hcr]
      exact ⟨fun _ _ => rfl, fun e he => by cases he⟩
    | true =>
      rw [handleEvent_reply_rated c k req p hfind hcr]
      have hkeys : ∀ e ∈ (streamDelta req k p).2, e.key = k := by
        intro e he
        obtain ⟨ch, rfl, _⟩ := streamDelta_key req k p e he
        rfl
      have hterm : ∀ r : PendingRequest, ∀ e ∈ terminalSignal r k, e.key = k := by
        intro r e he
        rcases r with ⟨st, cb, fc, lc⟩
        cases st <;> cases cb <;> simp [terminalSignal] at he <;> simp [he, Effect.key]
      cases hfin : p.IsFinal with
      | false =>
        simp only [Bool.false_eq_true, if_false]
        exact ⟨fun k' hk' => Load_writeThrough_other _ _ _ _ hk', hkeys⟩
      | true =>
        simp only [if_true]
        refine ⟨fun k' hk' => ?_, fun e he => ?_⟩
        · rw [Load_Delete_other _ _ _ hk', Load_writeThrough_other _ _ _ _ hk']
        · rcases List.mem_append.1 he with h | h
          · exact hkeys e h
          · exact hterm _ e h
  · by_cases hth : eventType = "thought"
    · subst hth
      by_cases hcond : (req.Stream && req.OnChunk && decide (p.Thought ≠ "")) = true
      · have h : handleEvent c "thought" (some p) =
            (c, [Effect.onChunk k ⟨"thought", p.Thought, false⟩]) := by
          simp only [handleEvent, hfind]
          rw [if_neg (by decide), if_pos trivial, if_pos hcond]
        rw [h]
        refine ⟨fun _ _ => rfl, fun e he => ?_⟩
        simp only [List.mem_singleton] at he
        subst he; rfl
      · have h : handleEvent c "thought" (some p) = (c, []) := by
          simp only [handleEvent, hfind]
          rw [if_neg (by decide), if_pos trivial, if_neg hcond]
        rw [h]
        exact ⟨fun _ _ => rfl, fun e he => by cases he⟩
    · have h : handleEvent c eventType (some p) = (c, []) := by
        simp only [handleEvent, hfind]
        rw [if_neg het, if_neg hth]
      rw [h]
      exact ⟨fun _ _ => rfl, fun e he => by cases he⟩

theorem latestContent_append (init : String) (evs : List Payload) (t : Payload) :
    latestContent init (evs ++ [t]) =
      if t.CanRating = true ∧ t.Content ≠ "" then t.Content else latestContent init evs := by
  induction evs generalizing init with
  | nil => rfl
  | cons e rest ih =>
    show latestContent _ (rest ++ [t]) = _
    exact ih _

theorem findRequest_of_targetKey (m : List (String × PendingRequest)) (id k : String)
    (req : PendingRequest) (hl : Load m k = some req) (ht : targetKey m id = some k) :
    findRequest m id = some (k, req) := by
  unfold targetKey at ht
  rcases hf : findRequest m id with _ | ⟨k', r'⟩
  · rw [hf] at ht; cases ht
  · rw [hf] at ht
    simp only [Option.map_some', Option.some.injEq] at ht
    subst ht
    have := findRequest_mem m id _ r' hf
    rw [hl] at this
    cases this
    rfl

theorem targetKey_writeThrough (m : List (String × PendingRequest)) (id k : String)
    (req v : PendingRequest) (hl : Load m k = some req) (ht : targetKey m id = some k) :
    targetKey (writeThrough m k v) id = some k := by
  have hf := findRequest_of_targetKey m id k req hl ht
  have hl' := Load_writeThrough_self m k req v hl
  by_cases hid : id = k
  · subst hid
    simp [targetKey, findRequest, hl']
  · unfold findRequest at hf
    rcases hload : Load m id with _ | r
    · rw [hload] at hf
      cases m with
      | nil => cases hf
      | cons e rest =>
        simp only [List.head?_cons, Option.some.injEq] at hf
        subst hf
        have hother : Load (writeThrough ((k, req) :: rest) k v) id = none := by
          rw [Load_writeThrough_other _ _ _ _ hid]; exact hload
        have hwt : writeThrough ((k, req) :: rest) k v = (k, v) :: rest := by
          simp [writeThrough]
        rw [hwt] at hother ⊢
        simp [targetKey, findRequest, hother]
    · rw [hload] at hf
      simp only [Option.some.injEq, Prod.mk.injEq] at hf
      exact absurd hf.1 hid

theorem nonstreaming_nonterminal_step (c : Client) (k : String) (req : PendingRequest)
    (p : Payload) (hl : Load c.pendingRequests k = some req) (hs : req.Stream = false)
    (hid : targetKey c.pendingRequests p.RequestID = some k)
    (hnt : ¬ (p.CanRating = true ∧ p.IsFinal = true)) :
    ∃ req', (handleEvent c "reply" (some p)).2 = [] ∧
      Load (handleEvent c "reply" (some p)).1.pendingRequests k = some req' ∧
      (∀ id, targetKey c.pendingRequests id = some k →
        targetKey (handleEvent c "reply" (some p)).1.pendingRequests id = some k) ∧
      req'.Stream = false ∧
      req'.FullContent =
        if p.CanRating = true ∧ p.Content ≠ "" then p.Content else req.FullContent := by
  cases hcr : p.CanRating with
  | false =>
    rw [handleEvent_echo c p hcr]
    exact ⟨req, rfl, hl, fun _ h => h, hs, by simp⟩
  | true =>
    have hfin : p.IsFinal = false := by
      cases h : p.IsFinal with
      | false => rfl
      | true => exact absurd ⟨hcr, h⟩ hnt
    have hfind := findRequest_of_targetKey _ _ k req hl hid
    rw [handleEvent_reply_rated c k req p hfind hcr, hfin, streamDelta_nonstream req k p hs,
      if_neg Bool.false_ne_true]
    refine ⟨setFullContent req p, rfl, Load_writeThrough_self _ _ _ _ hl,
      fun id h => targetKey_writeThrough _ id k req _ hl h, ?_, ?_⟩
    · rw [(setFullContent_fields req p).1, hs]
    · rw [(setFullContent_fields req p).2.2]
      by_cases h : p.Content ≠ "" <;> simp [h]

theorem nonstreaming_terminal_step (c : Client) (k : String) (req : PendingRequest)
    (p : Payload) (hl : Load c.pendingRequests k = some req) (hs : req.Stream = false)
    (hid : targetKey c.pendingRequests p.RequestID = some k)
    (hcr : p.CanRating = true) (hfin : p.IsFinal = true) :
    (handleEvent c "reply" (some p)).2 =
      [Effect.result k ⟨if p.Content ≠ "" then p.Content else req.FullContent, k⟩] := by
  have hfind := findRequest_of_targetKey _ _ k req hl hid
  rw [handleEvent_reply_rated c k req p hfind hcr, hfin, streamDelta_nonstream req k p hs,
    if_pos rfl]
  show terminalSignal (setFullContent req p) k = _
  unfold terminalSignal
  rw [(setFullContent_fields req p).1, hs, (setFullContent_fields req p).2.2]
  rfl

theorem terminal_removes (c : Client) (k : String) (req : PendingRequest) (p : Payload)
    (hfind : findRequest c.pendingRequests p.RequestID = some (k, req))
    (hcr : p.CanRating = true) (hfin : p.IsFinal = true) :
    Load (handleEvent c "reply" (some p)).1.pendingRequests k = none := by
  rw [handleEvent_reply_rated c k req p hfind hcr, hfin, if_pos rfl]
  exact Load_Delete_self _ _

theorem nonstreaming_run (evs : List Payload) :
    ∀ (c : Client) (k : String) (req : PendingRequest) (t : Payload),
      Load c.pendingRequests k = some req → req.Stream = false →
      (∀ e ∈ evs, targetKey c.pendingRequests e.RequestID = some k ∧
        ¬ (e.CanRating = true ∧ e.IsFinal = true)) →
      targetKey c.pendingRequests t.RequestID = some k →
      t.CanRating = true → t.IsFinal = true →
      (handleEvents c (replies (evs ++ [t]))).2 =
        [Effect.result k ⟨latestContent req.FullContent (evs ++ [t]), k⟩] := by
  induction evs with
  | nil =>
    intro c k req t hl hs _ hid hcr hfin
    simp only [List.nil_append, replies, List.map, handleEvents, List.append_nil]
    rw [nonstreaming_terminal_step c k req t hl hs hid hcr hfin]
    simp [latestContent, hcr]
  | cons e rest ih =>
    intro c k req t hl hs hevs hid hcr hfin
    obtain ⟨req', hout, hl', hkeep, hs', hfc⟩ :=
      nonstreaming_nonterminal_step c k req e hl hs (hevs e (List.mem_cons_self _ _)).1
        (hevs e (List.mem_cons_self _ _)).2
    have hrest := ih (handleEvent c "reply" (some e)).1 k req' t hl' hs'
      (fun e' he' => ⟨hkeep _ (hevs e' (List.mem_cons_of_mem _ he')).1,
        (hevs e' (List.mem_cons_of_mem _ he')).2⟩) (hkeep _ hid) hcr hfin
    have hstep : (handleEvents c (replies ((e :: rest) ++ [t]))).2 =
        (handleEvent c "reply" (some e)).2 ++
          (handleEvents (handleEvent c "reply" (some e)).1 (replies (rest ++ [t]))).2 := rfl
    rw [hstep, hout, hrest, hfc]
    rfl

theorem handleEvent_results (c : Client) (eventType : String) (p : Payload) (k : String)
    (req : PendingRequest)
    (hfind : findRequest c.pendingRequests p.RequestID = some (k, req)) :
    ∀ key r, Effect.result key r ∈ (handleEvent c eventType (some p)).2 →
      key = k ∧ r.RequestID = k := by
  intro key r hmem
  have hkey : key = k := (handleEvent_frame c eventType p k req hfind).2 _ hmem
  refine ⟨hkey, ?_⟩
  by_cases het : eventType = "reply"
  · subst het
    cases hcr : p.CanRating with
    | false => rw [handleEvent_echo c p hcr] at hmem; cases hmem
    | true =>
      rw [handleEvent_reply_rated c k req p hfind hcr] at hmem
      have hsd : Effect.result key r ∉ (streamDelta req k p).2 := by
        intro h
        obtain ⟨ch, he, _⟩ := streamDelta_key req k p _ h
        cases he
      cases hfin : p.IsFinal with
      | false =>
        rw [hfin, if_neg Bool.false_ne_true] at hmem
        exact absurd hmem hsd
      | true =>
        rw [hfin, if_pos rfl] at hmem
        rcases List.mem_append.1 hmem with h | h
        · exact absurd h hsd
        · generalize setFullContent (streamDelta req k p).1 p = r' at h
          rcases r' with ⟨st, cb, fc, lc⟩
          cases st <;> cases cb <;> simp [terminalSignal] at h
          all_goals rw [h.2]
  · by_cases hth : eventType = "thought"
    · subst hth
      simp only [handleEvent, hfind] at hmem
      rw [if_neg (by decide), if_pos trivial] at hmem
      split at hmem
      · simp at hmem
      · cases hmem
    · simp only [handleEvent, hfind] at hmem
      rw [if_neg het, if_neg hth] at hmem
      cases hmem

theorem handleEvent_fallback_eq (c : Client) (eventType : String) (p : Payload) (k : String)
    (req : PendingRequest)
    (hfind : findRequest c.pendingRequests p.RequestID = some (k, req)) :
    handleEvent c eventType (some p) =
      handleEvent c eventType (some { p with RequestID := k }) := by
  have hfind' : findRequest c.pendingRequests k = some (k, req) :=
    findRequest_of_Load _ _ _ (findRequest_mem _ _ _ _ hfind)
  simp only [handleEvent, hfind, hfind', streamDelta, setFullContent, newContent]

theorem mapIndex_eq_lookup (fields : List (String × GoAny)) (key : String) :
    mapIndex fields key = List.lookup key fields := by
  induction fields with
  | nil => rfl
  | cons e rest ih =>
    obtain ⟨k, v⟩ := e
    by_cases h : k = key
    · subst h
      simp [mapIndex, List.lookup]
    · have hb : (key == k) = false := by
        simp only [beq_eq_false_iff_ne, ne_eq]
        exact fun h' => h h'.symm
      simp [mapIndex, List.lookup, h, hb, ih]

theorem findRequest_singleton (k id : String) (req : PendingRequest) :
    findRequest [(k, req)] id = some (k, req) := by
  by_cases h : k = id
  · subst h; simp [findRequest, Load]
  · simp [findRequest, Load, h]

theorem handleEvent_rated_explicit (c : Client) (k : String) (req : PendingRequest)
    (p : Payload) (hfind : findRequest c.pendingRequests p.RequestID = some (k, req))
    (hcr : p.CanRating = true) :
    (handleEvent c "reply" (some p)).2 =
      (applyReply req k p).2 ++
        (if p.IsFinal = true then terminalSignal (applyReply req k p).1 k else []) ∧
    Load (handleEvent c "reply" (some p)).1.pendingRequests k =
      (if p.IsFinal = true then none else some (applyReply req k p).1) := by
  have hl := findRequest_mem _ _ _ _ hfind
  rw [handleEvent_reply_rated c k req p hfind hcr]
  cases hfin : p.IsFinal with
  | false =>
    rw [if_neg Bool.false_ne_true, if_neg Bool.false_ne_true, if_neg Bool.false_ne_true]
    exact ⟨(List.append_nil _).symm, Load_writeThrough_self _ _ _ _ hl⟩
  | true =>
    rw [if_pos rfl, if_pos rfl, if_pos rfl]
    exact ⟨rfl, Load_Delete_self _ _⟩

theorem handleEvent_thought_explicit (c : Client) (k : String) (req : PendingRequest)
    (p : Payload) (hfind : findRequest c.pendingRequests p.RequestID = some (k, req)) :
    (handleEvent c "thought" (some p)).1 = c ∧
    (handleEvent c "thought" (some p)).2 =
      if req.Stream = true ∧ req.OnChunk = true ∧ p.Thought ≠ "" then
        [Effect.onChunk k ⟨"thought", p.Thought, false⟩]
      else [] := by
  by_cases hcond : (req.Stream && req.OnChunk && decide (p.Thought ≠ "")) = true
  · have h : handleEvent c "thought" (some p) =
        (c, [Effect.onChunk k ⟨"thought", p.Thought, false⟩]) := by
      simp only [handleEvent, hfind]
      rw [if_neg (by decide), if_pos trivial, if_pos hcond]
    have hc : req.Stream = true ∧ req.OnChunk = true ∧ p.Thought ≠ "" := by
      simpa [Bool.and_eq_true, and_assoc] using hcond
    rw [h, if_pos hc]
    exact ⟨rfl, rfl⟩
  · have h : handleEvent c "thought" (some p) = (c, []) := by
      simp only [handleEvent, hfind]
      rw [if_neg (by decide), if_pos trivial, if_neg hcond]
    have hc : ¬ (req.Stream = true ∧ req.OnChunk = true ∧ p.Thought ≠ "") := by
      intro hc
      apply hcond
      simpa [Bool.and_eq_true, and_assoc] using hc
    rw [h, if_neg hc]
    exact ⟨rfl, rfl⟩

theorem handleEvent_other (c : Client) (eventType : String) (k : String)
    (req : PendingRequest) (p : Payload)
    (hfind : findRequest c.pendingRequests p.RequestID = some (k, req))
    (het : eventType ≠ "reply") (hth : eventType ≠ "thought") :
    handleEvent c eventType (some p) = (c, []) := by
  simp only [handleEvent, hfind]
  rw [if_neg het, if_neg hth]

theorem handleEvent_local (c : Client) (eventType : String) (p : Payload) (k : String)
    (req : PendingRequest)
    (hfind : findRequest c.pendingRequests p.RequestID = some (k, req)) :
    (handleEvent c eventType (some p)).2 =
      (handleEvent ⟨[(k, req)]⟩ eventType (some p)).2 ∧
    Load (handleEvent c eventType (some p)).1.pendingRequests k =
      Load (handleEvent ⟨[(k, req)]⟩ eventType (some p)).1.pendingRequests k := by
  have hl := findRequest_mem _ _ _ _ hfind
  have hsingle : findRequest (Client.mk [(k, req)]).pendingRequests p.RequestID =
      some (k, req) := findRequest_singleton k _ req
  have hl1 : Load [(k, req)] k = some req := by simp [Load]
  by_cases het : eventType = "reply"
  · subst het
    cases hcr : p.CanRating with
    | false =>
      rw [handleEvent_echo c p hcr, handleEvent_echo _ p hcr]
      exact ⟨rfl, hl.trans hl1.symm⟩
    | true =>
      obtain ⟨h1, h2⟩ := handleEvent_rated_explicit c k req p hfind hcr
      obtain ⟨h3, h4⟩ := handleEvent_rated_explicit _ k req p hsingle hcr
      exact ⟨h1.trans h3.symm, h2.trans h4.symm⟩
  · by_cases hth : eventType = "thought"
    · subst hth
      obtain ⟨h1, h2⟩ := handleEvent_thought_explicit c k req p hfind
      obtain ⟨h3, h4⟩ := handleEvent_thought_explicit _ k req p hsingle
      rw [h1, h3]
      exact ⟨h2.trans h4.symm, hl.trans hl1.symm⟩
    · rw [handleEvent_other c eventType k req p hfind het hth,
        handleEvent_other _ eventType k req p hsingle het hth]
      exact ⟨rfl, hl.trans hl1.symm⟩

theorem handledAgainst_of_findRequest (c : Client) (eventType : String) (p : Payload)
    (k : String) (req : PendingRequest)
    (hfind : findRequest c.pendingRequests p.RequestID = some (k, req)) :
    HandledAgainst c eventType p k req := by
  have hl := findRequest_mem _ _ _ _ hfind
  have hframe := handleEvent_frame c eventType p k req hfind
  have hlocal := handleEvent_local c eventType p k req hfind
  refine ⟨hframe.1, hframe.2, hlocal.1, hlocal.2, ?_, ?_, ?_⟩
  · intro het hcr
    subst het
    exact handleEvent_rated_explicit c k req p hfind hcr
  · intro het hcr hfin
    subst het
    refine ⟨handleEvent_results c _ p k req hfind, fun hs => ?_⟩
    have htk : targetKey c.pendingRequests p.RequestID = some k := by
      simp [targetKey, hfind]
    exact ⟨_, nonstreaming_terminal_step c k req p hl hs htk hcr hfin⟩
  · intro het
    subst het
    obtain ⟨h1, h2⟩ := handleEvent_thought_explicit c k req p hfind
    rw [h1]
    exact ⟨hl, h2⟩

theorem appendPart_eq (content : String) (part : GoAny) :
    appendPart content part = content ++ (textOfPart part).getD "" := by
  cases part with
  | map p =>
    simp only [appendPart, textOfPart, mapIndex_eq_lookup]
    rcases List.lookup "type" p with _ | ty
    · simp [isTextType]
    · cases ty with
      | str kind =>
        by_cases hk : kind = "text"
        · simp only [isTextType, hk, decide_True, if_true]
          rcases List.lookup "text" p with _ | tx
          · simp
          · cases tx <;> simp
        · simp [isTextType, hk]
      | slice l => simp [isTextType]
      | map m => simp [isTextType]
      | other => simp [isTextType]
  | str s => simp [appendPart, textOfPart]
  | slice l => simp [appendPart, textOfPart]
  | other => simp [appendPart, textOfPart]

theorem foldl_appendPart (parts : List GoAny) (content : String) :
    parts.foldl appendPart content = content ++ concatAll (textsOfParts parts) := by
  induction parts generalizing content with
  | nil => simp [textsOfParts, concatAll]
  | cons part rest ih =>
    rw [List.foldl_cons, ih, appendPart_eq]
    unfold textsOfParts at *
    cases h : textOfPart part with
    | none => simp [List.filterMap_cons, h]
    | some t => simp [List.filterMap_cons, h, concatAll, String.append_assoc]

theorem expectLit_append (lit input : List Char) :
    expectLit lit (lit ++ input) = some input := by
  induction lit with
  | nil => cases input <;> rfl
  | cons l lit ih => simp [expectLit, ih]

theorem jsonStringLit_cons (c : Char) (rest acc : List Char)
    (h1 : c ≠ quoteChar) (h2 : c ≠ escapeChar) (h3 : ¬ c.toNat < 32) :
    jsonStringLit (c :: rest) acc = jsonStringLit rest (c :: acc) := by
  rw [jsonStringLit.eq_def]
  simp only [if_neg h1, if_neg h2, if_neg h3]

theorem jsonStringLit_quote (rest acc : List Char) :
    jsonStringLit (quoteChar :: rest) acc = some (String.mk acc.reverse, rest) := by
  rw [jsonStringLit.eq_def]
  simp only [if_true]

theorem jsonStringLit_plain (t : List Char) :
    ∀ (acc rest : List Char),
      (∀ c ∈ t, c ≠ quoteChar ∧ c ≠ escapeChar ∧ 32 ≤ c.toNat) →
      jsonStringLit (t ++ quoteChar :: rest) acc =
        some (String.mk (acc.reverse ++ t), rest) := by
  induction t with
  | nil =>
    intro acc rest _
    rw [List.nil_append, jsonStringLit_quote, List.append_nil]
  | cons c t ih =>
    intro acc rest h
    obtain ⟨h1, h2, h3⟩ := h c (List.mem_cons_self _ _)
    have h3' : ¬ c.toNat < 32 := by omega
    rw [List.cons_append, jsonStringLit_cons c _ acc h1 h2 h3',
      ih (c :: acc) rest (fun c' hc' => h c' (List.mem_cons_of_mem _ hc'))]
    simp

/-- A token free of double quotes, backslashes and control characters is read back
from its auth frame. -/
theorem auth_frame_plain_token (token : String)
    (h : ∀ c ∈ token.data, c ≠ quoteChar ∧ c ≠ escapeChar ∧ 32 ≤ c.toNat) :
    decodeAuthFrame (authMsg token) = some token := by
  have hdata : (authMsg token).data =
      "40".data ++ ("\x7b\"token\":\"".data ++
        (token.data ++ quoteChar :: [Char.ofNat 125])) := by
    simp only [authMsg, String.data_append]
    rfl
  simp only [decodeAuthFrame, decodeTokenObject, hdata, expectLit_append,
    jsonStringLit_plain token.data [] _ h]
  simp

theorem frameHasPrefix_trans (msg a b : Frame) (hab : frameHasPrefix b a = true)
    (hb : frameHasPrefix msg b = true) : frameHasPrefix msg a = true := by
  unfold frameHasPrefix at *
  rw [List.isPrefixOf_iff_prefix] at *
  exact hab.trans hb

theorem test_lead (k : FrameKind) (msg : Frame) (h : k.test msg = true) :
    frameHasPrefix msg k.lead = true := by
  cases k with
  | openPacket =>
    simp only [FrameKind.test, isOpenFrame, Bool.or_eq_true, decide_eq_true_eq] at h
    rcases h with h | h
    · subst h; decide
    · exact frameHasPrefix_trans msg _ _ (by decide) h
  | ack =>
    simp only [FrameKind.test, isAckFrame, Bool.or_eq_true, decide_eq_true_eq] at h
    rcases h with h | h
    · subst h; decide
    · exact frameHasPrefix_trans msg _ _ (by decide) h
  | connectError => exact h
  | ping =>
    simp only [FrameKind.test, isPingFrame, decide_eq_true_eq] at h
    subst h; decide
  | event => exact h

theorem lead_comparable (k k' : FrameKind)
    (h : frameHasPrefix k'.lead k.lead = true ∨ frameHasPrefix k.lead k'.lead = true) :
    k = k' := by
  revert h
  cases k <;> cases k' <;> decide

theorem tests_exclusive (msg : Frame) (k k' : FrameKind) (h : k.test msg = true)
    (h' : k'.test msg = true) : k = k' := by
  have h1 := test_lead k msg h
  have h2 := test_lead k' msg h'
  apply lead_comparable
  unfold frameHasPrefix at *
  rw [List.isPrefixOf_iff_prefix] at h1 h2
  rw [List.isPrefixOf_iff_prefix, List.isPrefixOf_iff_prefix]
  exact List.prefix_or_prefix_of_prefix h1 h2

theorem classifyWith_of_test (msg : Frame) (k : FrameKind) (order : List FrameKind)
    (hmem : k ∈ order) (h : k.test msg = true) : classifyWith order msg = some k := by
  induction order with
  | nil => cases hmem
  | cons a rest ih =>
    by_cases ha : a.test msg = true
    · have hak := tests_exclusive msg a k ha h
      subst hak
      simp [classifyWith, List.find?, ha]
    · rcases List.mem_cons.1 hmem with hk | hk
      · subst hk; exact absurd h ha
      · have := ih hk
        simp only [classifyWith] at this ⊢
        simp [List.find?, ha, this]

theorem classifyWith_test (msg : Frame) (k : FrameKind) (order : List FrameKind)
    (h : classifyWith order msg = some k) : k.test msg = true ∧ k ∈ order := by
  unfold classifyWith at h
  exact ⟨by simpa using List.find?_some h, List.mem_of_find?_eq_some h⟩

theorem classifyWith_order (msg : Frame) (order order' : List FrameKind)
    (hsame : ∀ k, k ∈ order ↔ k ∈ order') :
    classifyWith order msg = classifyWith order' msg := by
  cases h : classifyWith order msg with
  | some k =>
    obtain ⟨ht, hm⟩ := classifyWith_test msg k order h
    exact (classifyWith_of_test msg k order' ((hsame k).1 hm) ht).symm
  | none =>
    cases h' : classifyWith order' msg with
    | none => rfl
    | some k =>
      obtain ⟨ht, hm⟩ := classifyWith_test msg k order' h'
      rw [classifyWith_of_test msg k order ((hsame k).2 hm) ht] at h
      cases h

theorem sliceFrame_two (msg a : Frame) (ha : a.length = 2)
    (h : frameHasPrefix msg a = true) : sliceFrame msg 2 = some (msg.drop 2) := by
  unfold frameHasPrefix at h
  rw [List.isPrefixOf_iff_prefix] at h
  have hlen := h.length_le
  unfold sliceFrame
  rw [if_pos (by omega)]

theorem handshakeFrame_branch (msg : Frame) (order : List FrameKind)
    (hall : ∀ k, k ∈ order) (wsToken : String) (writeErr : Option String) (s : Session) :
    handshakeFrame wsToken writeErr s msg =
      handshakeBranch wsToken writeErr s msg (classifyWith order msg) := by
  by_cases h1 : isOpenFrame msg = true
  · rw [classifyWith_of_test msg FrameKind.openPacket order (hall _) h1]
    unfold handshakeFrame
    rw [if_pos h1]
    rfl
  · by_cases h2 : isAckFrame msg = true
    · rw [classifyWith_of_test msg FrameKind.ack order (hall _) h2]
      unfold handshakeFrame
      rw [if_neg h1, if_pos h2]
      rfl
    · by_cases h3 : isErrorFrame msg = true
      · rw [classifyWith_of_test msg FrameKind.connectError order (hall _) h3]
        unfold handshakeFrame
        rw [if_neg h1, if_neg h2, if_pos h3, sliceFrame_two msg [52, 52] rfl h3]
        rfl
      · unfold handshakeFrame
        rw [if_neg h1, if_neg h2, if_neg h3]
        cases hc : classifyWith order msg with
        | none => rfl
        | some k =>
          have ht := (classifyWith_test msg k order hc).1
          cases k with
          | openPacket => exact absurd ht h1
          | ack => exact absurd ht h2
          | connectError => exact absurd ht h3
          | ping => rfl
          | event => rfl

theorem handleMessagesFrame_branch (msg : Frame) (order : List FrameKind)
    (hall : ∀ k, k ∈ order) (unmarshal : Frame → Option (String × Option Payload))
    (s : Session) :
    handleMessagesFrame unmarshal s msg =
      handleMessagesBranch unmarshal s msg (classifyWith order msg) := by
  by_cases h1 : isPingFrame msg = true
  · rw [classifyWith_of_test msg FrameKind.ping order (hall _) h1]
    unfold handleMessagesFrame
    rw [if_pos h1]
    rfl
  · by_cases h2 : isEventFrame msg = true
    · rw [classifyWith_of_test msg FrameKind.event order (hall _) h2]
      unfold handleMessagesFrame
      rw [if_neg h1, if_pos h2]
      rfl
    · unfold handleMessagesFrame
      rw [if_neg h1, if_neg h2]
      cases hc : classifyWith order msg with
      | none => rfl
      | some k =>
        have ht := (classifyWith_test msg k order hc).1
        cases k with
        | openPacket => rfl
        | ack => rfl
        | connectError => rfl
        | ping => exact absurd ht h1
        | event => exact absurd ht h2

theorem handleSocketIOMessage_isSome (msg : Frame)
    (unmarshal : Frame → Option (String × Option Payload)) (s : Session)
    (h : isEventFrame msg = true) :
    (handleSocketIOMessage unmarshal s msg).isSome = true := by
  unfold handleSocketIOMessage
  rw [sliceFrame_two msg [52, 50] rfl h]
  simp only []
  split
  · rfl
  · split <;> rfl

theorem handshakeFrame_isSome (msg : Frame) (wsToken : String) (writeErr : Option String)
    (s : Session) : (handshakeFrame wsToken writeErr s msg).isSome = true := by
  unfold handshakeFrame
  by_cases h1 : isOpenFrame msg = true
  · rw [if_pos h1]; cases writeErr <;> rfl
  · by_cases h2 : isAckFrame msg = true
    · rw [if_neg h1, if_pos h2]; rfl
    · by_cases h3 : isErrorFrame msg = true
      · rw [if_neg h1, if_neg h2, if_pos h3, sliceFrame_two msg [52, 52] rfl h3]; rfl
      · rw [if_neg h1, if_neg h2, if_neg h3]; rfl

theorem handleMessagesFrame_isSome (msg : Frame)
    (unmarshal : Frame → Option (String × Option Payload)) (s : Session) :
    (handleMessagesFrame unmarshal s msg).isSome = true := by
  unfold handleMessagesFrame
  by_cases h1 : isPingFrame msg = true
  · rw [if_pos h1]; rfl
  · by_cases h2 : isEventFrame msg = true
    · rw [if_neg h1, if_pos h2]; exact handleSocketIOMessage_isSome msg unmarshal s h2
    · rw [if_neg h1, if_neg h2]; rfl

theorem applyReply_step (req : PendingRequest) (k : String) (p : Payload)
    (hs : req.Stream = true) (hcb : req.OnChunk = true)
    (hlast : req.LastContent = req.FullContent)
    (hpre : p.Content = "" ∨ HasPrefix p.Content req.FullContent = true) :
    (applyReply req k p).1.Stream = true ∧ (applyReply req k p).1.OnChunk = true ∧
    (applyReply req k p).1.LastContent = (applyReply req k p).1.FullContent ∧
    (applyReply req k p).1.FullContent =
      (if p.Content ≠ "" then p.Content else req.FullContent) ∧
    ∃ d, req.FullContent ++ d = (applyReply req k p).1.FullContent ∧
      (applyReply req k p).2 =
        if d ≠ "" then [Effect.onChunk k ⟨"content", d, p.IsFinal⟩] else [] := by
  obtain ⟨st, cb, full, last⟩ := req
  simp only at hs hcb hlast hpre
  subst hs hcb hlast
  by_cases hc : p.Content = ""
  · have happ : applyReply ⟨true, true, last, last⟩ k p = (⟨true, true, last, last⟩, []) := by
      unfold applyReply setFullContent
      rw [streamDelta_skips _ k p (fun h => h.1 hc), if_neg (not_not.2 hc)]
    rw [happ]
    exact ⟨rfl, rfl, rfl, by rw [if_neg (not_not.2 hc)], "", by simp, by simp⟩
  · by_cases hl : p.Content = last
    · have happ : applyReply ⟨true, true, last, last⟩ k p =
          (⟨true, true, p.Content, last⟩, []) := by
        unfold applyReply setFullContent
        rw [streamDelta_skips _ k p (fun h => h.2 hl), if_pos hc]
      rw [happ]
      exact ⟨rfl, rfl, hl.symm, by rw [if_pos hc], "", by simp [hl], by simp⟩
    · have hp : HasPrefix p.Content last = true := by
        rcases hpre with h | h
        · exact absurd h hc
        · exact h
      obtain ⟨t, ht⟩ := (HasPrefix_iff _ _).1 hp
      have hnew : newContent ⟨true, true, last, last⟩ p = t := by
        unfold newContent
        by_cases hfull : last = ""
        · rw [if_neg (fun h => h.1 hfull), ht, hfull]; simp
        · rw [if_pos ⟨hfull, hp⟩, ht]; exact sliceFrom_append _ _
      have hsd : streamDelta ⟨true, true, last, last⟩ k p =
          (⟨true, true, last, p.Content⟩,
            if t ≠ "" then [Effect.onChunk k ⟨"content", t, p.IsFinal⟩] else []) := by
        have h1 : ((⟨true, true, last, last⟩ : PendingRequest).Stream &&
            (⟨true, true, last, last⟩ : PendingRequest).OnChunk) = true := rfl
        have h2 : p.Content ≠ "" ∧
            p.Content ≠ (⟨true, true, last, last⟩ : PendingRequest).LastContent := ⟨hc, hl⟩
        unfold streamDelta
        rw [if_pos h1, if_pos h2, hnew]
      have happ : applyReply ⟨true, true, last, last⟩ k p =
          (⟨true, true, p.Content, p.Content⟩,
            if t ≠ "" then [Effect.onChunk k ⟨"content", t, p.IsFinal⟩] else []) := by
        unfold applyReply setFullContent
        rw [hsd, if_pos hc]
      rw [happ]
      exact ⟨rfl, rfl, rfl, by rw [if_pos hc], t, ht.symm, rfl⟩

theorem concatAll_append (xs ys : List String) :
    concatAll (xs ++ ys) = concatAll xs ++ concatAll ys := by
  induction xs with
  | nil => simp [concatAll]
  | cons x xs ih => simp [concatAll, ih, String.append_assoc]

theorem contentTexts_append (xs ys : List Effect) :
    contentTexts (xs ++ ys) = contentTexts xs ++ contentTexts ys := by
  simp [contentTexts, contentChunks_append]

theorem contentChunks_delta (k d : String) (fin : Bool) :
    contentChunks (if d ≠ "" then [Effect.onChunk k ⟨"content", d, fin⟩] else []) =
      if d ≠ "" then [(k, ⟨"content", d, fin⟩)] else [] := by
  by_cases h : d = ""
  · rw [if_neg (not_not.2 h), if_neg (not_not.2 h)]; rfl
  · rw [if_pos h, if_pos h]; simp [contentChunks]

theorem applyReplies_run (k : String) (evs : List Payload) :
    ∀ req : PendingRequest, req.Stream = true → req.OnChunk = true →
      req.LastContent = req.FullContent →
      (∀ e ∈ evs, e.CanRating = true) → cumulative req.FullContent evs = true →
      (applyReplies req k evs).1.LastContent = (applyReplies req k evs).1.FullContent ∧
      (applyReplies req k evs).1.FullContent = latestContent req.FullContent evs ∧
      req.FullContent ++ concatAll (contentTexts (applyReplies req k evs).2) =
        (applyReplies req k evs).1.FullContent ∧
      ∀ kc ∈ contentChunks (applyReplies req k evs).2, kc.1 = k ∧ kc.2.Content ≠ "" := by
  induction evs with
  | nil =>
    intro req _ _ hlast _ _
    refine ⟨hlast, rfl, ?_, ?_⟩
    · show req.FullContent ++ concatAll [] = req.FullContent
      simp [concatAll]
    · intro kc hkc; cases hkc
  | cons e rest ih =>
    intro req hs hcb hlast hrated hcum
    have hpre : e.Content = "" ∨ HasPrefix e.Content req.FullContent = true := by
      by_cases hc : e.Content = ""
      · exact Or.inl hc
      · simp only [cumulative, if_neg hc, Bool.and_eq_true] at hcum
        exact Or.inr hcum.1
    obtain ⟨hs1, hcb1, hlast1, hfull1, d, hd, hout⟩ := applyReply_step req k e hs hcb hlast hpre
    have hcum1 : cumulative (applyReply req k e).1.FullContent rest = true := by
      rw [hfull1]
      by_cases hc : e.Content = ""
      · simp only [cumulative, if_pos hc] at hcum
        rw [if_neg (not_not.2 hc)]; exact hcum
      · simp only [cumulative, if_neg hc, Bool.and_eq_true] at hcum
        rw [if_pos hc]; exact hcum.2
    obtain ⟨ih1, ih2, ih3, ih4⟩ := ih (applyReply req k e).1 hs1 hcb1 hlast1
      (fun e' he' => hrated e' (List.mem_cons_of_mem _ he')) hcum1
    have hlatest : latestContent req.FullContent (e :: rest) =
        latestContent (applyReply req k e).1.FullContent rest := by
      rw [hfull1]
      simp only [latestContent, hrated e (List.mem_cons_self _ _), true_and]
    have hunf : applyReplies req k (e :: rest) =
        ((applyReplies (applyReply req k e).1 k rest).1,
          (applyReply req k e).2 ++ (applyReplies (applyReply req k e).1 k rest).2) := rfl
    rw [hunf]
    refine ⟨ih1, by rw [hlatest]; exact ih2, ?_, ?_⟩
    · show req.FullContent ++ concatAll (contentTexts ((applyReply req k e).2 ++
          (applyReplies (applyReply req k e).1 k rest).2)) =
        (applyReplies (applyReply req k e).1 k rest).1.FullContent
      have htexts : concatAll (contentTexts (applyReply req k e).2) = d := by
        rw [hout]
        unfold contentTexts
        rw [contentChunks_delta]
        by_cases h : d = ""
        · rw [if_neg (not_not.2 h), h]; rfl
        · rw [if_pos h]; simp [concatAll]
      rw [contentTexts_append, concatAll_append, htexts, ← String.append_assoc, hd]
      exact ih3
    · intro kc hkc
      rw [contentChunks_append] at hkc
      rcases List.mem_append.1 hkc with h | h
      · rw [hout, contentChunks_delta] at h
        by_cases hd0 : d = ""
        · rw [if_neg (not_not.2 hd0)] at h; cases h
        · rw [if_pos hd0, List.mem_singleton] at h
          subst h
          exact ⟨rfl, hd0⟩
      · exact ih4 kc h

theorem cumulative_append (pre suf : List Payload) :
    ∀ prev, cumulative prev (pre ++ suf) = true → cumulative prev pre = true := by
  induction pre with
  | nil => intro _ _; rfl
  | cons e rest ih =>
    intro prev h
    by_cases hc : e.Content = ""
    · simp only [List.cons_append, cumulative, if_pos hc] at h ⊢
      exact ih prev h
    · simp only [List.cons_append, cumulative, if_neg hc, Bool.and_eq_true] at h ⊢
      exact ⟨h.1, ih _ h.2⟩

theorem handleEvent_nonfinal (c : Client) (k : String) (req : PendingRequest)
    (p : Payload) (hl : Load c.pendingRequests k = some req)
    (hid : targetKey c.pendingRequests p.RequestID = some k)
    (hcr : p.CanRating = true) (hfin : p.IsFinal = false) :
    (handleEvent c "reply" (some p)).2 = (applyReply req k p).2 ∧
    Load (handleEvent c "reply" (some p)).1.pendingRequests k =
      some (applyReply req k p).1 ∧
    (∀ id, targetKey c.pendingRequests id = some k →
      targetKey (handleEvent c "reply" (some p)).1.pendingRequests id = some k) := by
  have hfind := findRequest_of_targetKey _ _ k req hl hid
  rw [handleEvent_reply_rated c k req p hfind hcr, hfin, if_neg Bool.false_ne_true]
  exact ⟨rfl, Load_writeThrough_self _ _ _ _ hl,
    fun id h => targetKey_writeThrough _ id k req _ hl h⟩

theorem contentChunks_run (evs : List Payload) :
    ∀ (c : Client) (k : String) (req : PendingRequest),
      Load c.pendingRequests k = some req →
      (∀ e ∈ evs, targetKey c.pendingRequests e.RequestID = some k ∧ e.CanRating = true) →
      (∀ e ∈ evs.dropLast, e.IsFinal = false) →
      contentChunks (handleEvents c (replies evs)).2 =
        contentChunks (applyReplies req k evs).2 := by
  induction evs with
  | nil => intro c k req _ _ _; rfl
  | cons e rest ih =>
    intro c k req hl hroute hfinal
    obtain ⟨hid, hcr⟩ := hroute e (List.mem_cons_self _ _)
    have hfind := findRequest_of_targetKey _ _ k req hl hid
    have hunf : (handleEvents c (replies (e :: rest))).2 =
        (handleEvent c "reply" (some e)).2 ++
          (handleEvents (handleEvent c "reply" (some e)).1 (replies rest)).2 := rfl
    have hunf' : (applyReplies req k (e :: rest)).2 =
        (applyReply req k e).2 ++ (applyReplies (applyReply req k e).1 k rest).2 := rfl
    rw [hunf, hunf', contentChunks_append, contentChunks_append,
      contentChunks_handleEvent_reply c k req e hfind hcr]
    congr 1
    cases rest with
    | nil => rfl
    | cons e' rest' =>
      have hfin : e.IsFinal = false := hfinal e (by simp [List.dropLast])
      obtain ⟨_, hl', hkeep⟩ := handleEvent_nonfinal c k req e hl hid hcr hfin
      exact ih _ k _ hl'
        (fun x hx => ⟨hkeep _ (hroute x (List.mem_cons_of_mem _ hx)).1,
          (hroute x (List.mem_cons_of_mem _ hx)).2⟩)
        (fun x hx => hfinal x (by simp only [List.dropLast]; exact List.mem_cons_of_mem _ hx))

theorem pending_run (evs : List Payload) :
    ∀ (c : Client) (k : String) (req : PendingRequest),
      Load c.pendingRequests k = some req →
      (∀ e ∈ evs, targetKey c.pendingRequests e.RequestID = some k ∧ e.CanRating = true) →
      (∀ e ∈ evs, e.IsFinal = false) →
      Load (handleEvents c (replies evs)).1.pendingRequests k =
        some (applyReplies req k evs).1 := by
  induction evs with
  | nil => intro c k req hl _ _; exact hl
  | cons e rest ih =>
    intro c k req hl hroute hfinal
    obtain ⟨hid, hcr⟩ := hroute e (List.mem_cons_self _ _)
    obtain ⟨_, hl', hkeep⟩ :=
      handleEvent_nonfinal c k req e hl hid hcr (hfinal e (List.mem_cons_self _ _))
    exact ih _ k _ hl'
      (fun x hx => ⟨hkeep _ (hroute x (List.mem_cons_of_mem _ hx)).1,
        (hroute x (List.mem_cons_of_mem _ hx)).2⟩)
      (fun x hx => hfinal x (List.mem_cons_of_mem _ hx))

/-! ## The claims -/

/-- C1: for a streaming request with a callback and a rated reply applied to it whose
content `c` is non-empty and differs from `LastContent`, the delta is `c` without the
leading `FullContent` when `FullContent` is non-empty and starts `c`, and `c` itself
otherwise; the content chunks passed to `OnChunk` are exactly that delta when it is
non-empty and none when it is empty; no content chunk is emitted when `c` is empty or
equals `LastContent`.  On a fresh request "Hello" then "Hello, world" emit "Hello" and
", world"; "Hello" then "Goodbye" emit "Hello" and "Goodbye". -/
theorem streaming_delta_rule :
    (∀ (c : Client) (k : String) (req : PendingRequest) (p : Payload),
      findRequest c.pendingRequests p.RequestID = some (k, req) →
      req.Stream = true → req.OnChunk = true → p.CanRating = true →
      (p.Content ≠ "" ∧ p.Content ≠ req.LastContent →
        ∃ delta : String,
          ((req.FullContent ≠ "" ∧ p.Content = req.FullContent ++ delta) ∨
            (¬ (req.FullContent ≠ "" ∧ ∃ t, p.Content = req.FullContent ++ t) ∧
              delta = p.Content)) ∧
          contentChunks (handleEvent c "reply" (some p)).2 =
            if delta ≠ "" then [(k, ⟨"content", delta, p.IsFinal⟩)] else []) ∧
      (p.Content = "" ∨ p.Content = req.LastContent →
        contentChunks (handleEvent c "reply" (some p)).2 = [])) ∧
    contentChunks (handleEvents ⟨[("r", newRequest true true)]⟩
        [("reply", some (reply "r" "Hello" true false)),
         ("reply", some (reply "r" "Hello, world" true false))]).2 =
      [("r", ⟨"content", "Hello", false⟩), ("r", ⟨"content", ", world", false⟩)] ∧
    contentChunks (handleEvents ⟨[("r", newRequest true true)]⟩
        [("reply", some (reply "r" "Hello" true false)),
         ("reply", some (reply "r" "Goodbye" true false))]).2 =
      [("r", ⟨"content", "Hello", false⟩), ("r", ⟨"content", "Goodbye", false⟩)] := by
  refine ⟨?_, by decide, by decide⟩
  intro c k req p hfind hs hcb hcr
  rw [contentChunks_handleEvent_reply c k req p hfind hcr]
  constructor
  · intro hne
    by_cases hpre : req.FullContent ≠ "" ∧ HasPrefix p.Content req.FullContent = true
    · obtain ⟨t, ht⟩ := (HasPrefix_iff _ _).1 hpre.2
      refine ⟨t, Or.inl ⟨hpre.1, ht⟩, ?_⟩
      have hsl : sliceFrom p.Content req.FullContent.length = t := by
        rw [ht]; exact sliceFrom_append _ _
      have hnc : newContent req p = t := by
        unfold newContent; rw [if_pos hpre, hsl]
      rw [streamDelta_emits req k p hs hcb hne, hnc]
      by_cases h0 : t = ""
      · rw [if_neg (not_not.2 h0), if_neg (not_not.2 h0)]; rfl
      · rw [if_pos h0, if_pos h0]; simp [contentChunks]
    · refine ⟨p.Content, Or.inr ⟨?_, rfl⟩, ?_⟩
      · rintro ⟨h1, h2⟩
        exact hpre ⟨h1, (HasPrefix_iff _ _).2 h2⟩
      · have hnc : newContent req p = p.Content := by
          unfold newContent; rw [if_neg hpre]
        rw [streamDelta_emits req k p hs hcb hne, hnc, if_pos hne.1, if_pos hne.1]
        simp [contentChunks]
  · intro h
    have hno : ¬ (p.Content ≠ "" ∧ p.Content ≠ req.LastContent) := by
      rintro ⟨h1, h2⟩
      rcases h with h | h
      · exact h1 h
      · exact h2 h
    rw [streamDelta_skips req k p hno]
    rfl

/-- Witness of C1: the second reply of the "Hello", "Hello, world" run. -/
theorem streaming_delta_rule_witness :
    (("Hello, world" : String) ≠ "" ∧ ("Hello, world" : String) ≠ "Hello" →
      ∃ delta : String,
        ((("Hello" : String) ≠ "" ∧ "Hello, world" = "Hello" ++ delta) ∨
          (¬ (("Hello" : String) ≠ "" ∧ ∃ t, "Hello, world" = "Hello" ++ t) ∧
            delta = "Hello, world")) ∧
        contentChunks (handleEvent ⟨[("r", ⟨true, true, "Hello", "Hello"⟩)]⟩ "reply"
            (some (reply "r" "Hello, world" true false))).2 =
          if delta ≠ "" then [("r", ⟨"content", delta, false⟩)] else []) ∧
    (("Hello, world" : String) = "" ∨ ("Hello, world" : String) = "Hello" →
      contentChunks (handleEvent ⟨[("r", ⟨true, true, "Hello", "Hello"⟩)]⟩ "reply"
          (some (reply "r" "Hello, world" true false))).2 = []) :=
  streaming_delta_rule.1 ⟨[("r", ⟨true, true, "Hello", "Hello"⟩)]⟩ "r"
    ⟨true, true, "Hello", "Hello"⟩ (reply "r" "Hello, world" true false)
    (by decide) rfl rfl rfl

/-- C2, the claim as stated fails: after a rated non-final reply "abc", a terminal reply
with an empty content puts "abc" on the result channel, not the terminal reply's
content. -/
theorem nonstreaming_result_content_counterexample :
    (handleEvents ⟨[("r", newRequest false false)]⟩
        (replies [reply "r" "abc" true false, reply "r" "" true true])).2 =
      [Effect.result "r" ⟨"abc", "r"⟩] ∧
    (reply "r" "" true true).Content ≠ "abc" := by
  decide

/-- C2, amended: for a non-streaming pending request stored under `k` and replies
applied to it (by their request id or by the fallback), none terminal, followed by a
terminal reply `t`, exactly one result is sent, on that request's channel; `Chat`
returns it; its `RequestID` is `k` and its `Content` is
the latest non-empty content of the rated replies (the request's earlier `FullContent`
when there is none): `t.Content` when that is non-empty, the latest content before `t`
otherwise. -/
theorem nonstreaming_result_content (c : Client) (k : String) (req : PendingRequest)
    (evs : List Payload) (t : Payload)
    (hl : Load c.pendingRequests k = some req) (hs : req.Stream = false)
    (hevs : ∀ e ∈ evs, targetKey c.pendingRequests e.RequestID = some k ∧
      ¬ (e.CanRating = true ∧ e.IsFinal = true))
    (hid : targetKey c.pendingRequests t.RequestID = some k)
    (hcr : t.CanRating = true) (hfin : t.IsFinal = true) :
    (handleEvents c (replies (evs ++ [t]))).2 =
      [Effect.result k ⟨latestContent req.FullContent (evs ++ [t]), k⟩] ∧
    awaitResponse none (resultChannel k (handleEvents c (replies (evs ++ [t]))).2).head? =
      Except.ok ⟨latestContent req.FullContent (evs ++ [t]), k⟩ ∧
    (t.Content ≠ "" → latestContent req.FullContent (evs ++ [t]) = t.Content) ∧
    (t.Content = "" →
      latestContent req.FullContent (evs ++ [t]) = latestContent req.FullContent evs) := by
  have hrun := nonstreaming_run evs c k req t hl hs hevs hid hcr hfin
  refine ⟨hrun, ?_, ?_, ?_⟩
  · rw [hrun]
    simp [resultChannel, awaitResponse]
  · intro hne
    rw [latestContent_append, if_pos ⟨hcr, hne⟩]
  · intro he
    rw [latestContent_append, if_neg (fun h => h.2 he)]

/-- Witness of C2: the end-to-end scenario, a single terminal reply "hi there". -/
theorem nonstreaming_result_content_witness :
    (handleEvents ⟨[("R", newRequest false false)]⟩
        (replies ([] ++ [reply "R" "hi there" true true]))).2 =
      [Effect.result "R" ⟨"hi there", "R"⟩] :=
  (nonstreaming_result_content ⟨[("R", newRequest false false)]⟩ "R"
    (newRequest false false) [] (reply "R" "hi there" true true)
    (by decide) rfl (by intro e he; cases he) (by decide) rfl rfl).1

/-- C3, the claim as stated fails: a streaming request registered without a callback
is removed by a terminal reply but receives no terminal signal at all. -/
theorem terminal_detection_counterexample :
    handleEvent ⟨[("r", newRequest true false)]⟩ "reply"
        (some (reply "r" "bye" true true)) = (⟨[]⟩, []) := by
  decide

/-- C3, amended: a terminal reply (`can_rating` and `is_final` both true) applied to
the pending request stored under `k` removes `k` from the pending map and delivers
exactly one terminal signal for it when the request is non-streaming (one result on
its channel) or streaming with a callback (one "done" chunk); a streaming request
without a callback is removed without any signal. -/
theorem terminal_detection (c : Client) (k : String) (req : PendingRequest) (p : Payload)
    (hfind : findRequest c.pendingRequests p.RequestID = some (k, req))
    (hcr : p.CanRating = true) (hfin : p.IsFinal = true) :
    Load (handleEvent c "reply" (some p)).1.pendingRequests k = none ∧
    (req.Stream = false →
      ∃ r, terminalSignals (handleEvent c "reply" (some p)).2 = [Effect.result k r]) ∧
    (req.Stream = true → req.OnChunk = true →
      terminalSignals (handleEvent c "reply" (some p)).2 =
        [Effect.onChunk k ⟨"done", "", false⟩]) ∧
    (req.Stream = true → req.OnChunk = false →
      (handleEvent c "reply" (some p)).2 = []) := by
  rw [handleEvent_reply_rated c k req p hfind hcr, hfin, if_pos rfl]
  have hst : (setFullContent (streamDelta req k p).1 p).Stream = req.Stream := by
    rw [(setFullContent_fields _ p).1, (streamDelta_fst_Stream req k p).1]
  have hcb : (setFullContent (streamDelta req k p).1 p).OnChunk = req.OnChunk := by
    rw [(setFullContent_fields _ p).2.1, (streamDelta_fst_Stream req k p).2.1]
  refine ⟨Load_Delete_self _ _, ?_, ?_, ?_⟩
  · intro hs
    refine ⟨⟨(setFullContent (streamDelta req k p).1 p).FullContent, k⟩, ?_⟩
    rw [terminalSignals_append, terminalSignals_streamDelta]
    simp [terminalSignal, hst, hs, terminalSignals]
  · intro hs ho
    rw [terminalSignals_append, terminalSignals_streamDelta]
    simp [terminalSignal, hst, hcb, hs, ho, terminalSignals]
  · intro hs ho
    have hsd : streamDelta req k p = (req, []) := by simp [streamDelta, hs, ho]
    rw [hsd]
    simp [terminalSignal, setFullContent_fields, hs, ho]

/-- Witness of C3: a streaming request with a callback, after a non-final reply. -/
theorem terminal_detection_witness :
    Load (handleEvent ⟨[("r", ⟨true, true, "Hel", "Hel"⟩)]⟩ "reply"
        (some (reply "r" "Hello" true true))).1.pendingRequests "r" = none ∧
      terminalSignals (handleEvent ⟨[("r", ⟨true, true, "Hel", "Hel"⟩)]⟩ "reply"
        (some (reply "r" "Hello" true true))).2 =
        [Effect.onChunk "r" ⟨"done", "", false⟩] :=
  have h := terminal_detection ⟨[("r", ⟨true, true, "Hel", "Hel"⟩)]⟩ "r"
    ⟨true, true, "Hel", "Hel"⟩ (reply "r" "Hello" true true) (by decide) rfl rfl
  ⟨h.1, h.2.2.1 rfl rfl⟩

/-- C4: a reply with `can_rating = false`, whatever its request id, content and
`is_final` flag, calls no callback, sends on no channel and leaves the pending map,
with the `FullContent` and `LastContent` of every entry, unchanged. -/
theorem echo_suppression (c : Client) (requestID content thought : String)
    (isFinal : Bool) :
    handleEvent c "reply" (some ⟨requestID, content, false, isFinal, thought⟩) = (c, []) :=
  handleEvent_echo c _ rfl

/-- C5: correlation rule of `handleEvent`.  When the payload's request id is a key of
the pending map, the event is applied to that entry and to no other: its effects and the
entry afterwards are those of lines 266-319 run on that request, every other key keeps
its binding.  When it is not a key and the map is non-empty, the event is applied in
the same way to exactly one entry `k` of the map, the first that `Range` visits, just as
if it had carried `k`; a terminal reply then removes `k` and reports `k` as the
`RequestID` of the result.  When the map is empty the event changes nothing and delivers
nothing.  With "a" and "b" pending, a terminal reply for "b" gives "b" its result and
leaves "a" alone, one for the unknown id "zz" gives the result to "a", a non-final reply
and a thought for "b" reach the callback of "b" only. -/
theorem correlation_rule (c : Client) (eventType : String) (p : Payload) :
    (∀ req, Load c.pendingRequests p.RequestID = some req →
      findRequest c.pendingRequests p.RequestID = some (p.RequestID, req) ∧
      HandledAgainst c eventType p p.RequestID req) ∧
    (Load c.pendingRequests p.RequestID = none → c.pendingRequests ≠ [] →
      ∃ k req, Load c.pendingRequests k = some req ∧
        c.pendingRequests.head? = some (k, req) ∧
        findRequest c.pendingRequests p.RequestID = some (k, req) ∧
        handleEvent c eventType (some p) =
          handleEvent c eventType (some { p with RequestID := k }) ∧
        HandledAgainst c eventType p k req ∧
        (eventType = "reply" → p.CanRating = true → p.IsFinal = true →
          Load (handleEvent c eventType (some p)).1.pendingRequests k = none)) ∧
    (c.pendingRequests = [] → handleEvent c eventType (some p) = (c, [])) ∧
    handleEvent ⟨[("a", newRequest false false), ("b", newRequest false false)]⟩ "reply"
        (some (reply "b" "hi" true true)) =
      (⟨[("a", newRequest false false)]⟩, [Effect.result "b" ⟨"hi", "b"⟩]) ∧
    handleEvent ⟨[("a", newRequest false false), ("b", newRequest false false)]⟩ "reply"
        (some (reply "zz" "hi" true true)) =
      (⟨[("b", newRequest false false)]⟩, [Effect.result "a" ⟨"hi", "a"⟩]) ∧
    handleEvent ⟨[("a", newRequest true true), ("b", newRequest true true)]⟩ "reply"
        (some (reply "b" "Hel" true false)) =
      (⟨[("a", newRequest true true), ("b", ⟨true, true, "Hel", "Hel"⟩)]⟩,
        [Effect.onChunk "b" ⟨"content", "Hel", false⟩]) ∧
    handleEvent ⟨[("a", newRequest true true), ("b", newRequest true true)]⟩ "thought"
        (some ⟨"b", "", false, false, "hmm"⟩) =
      (⟨[("a", newRequest true true), ("b", newRequest true true)]⟩,
        [Effect.onChunk "b" ⟨"thought", "hmm", false⟩]) := by
  refine ⟨?_, ?_, ?_, by decide, by decide, by decide, by decide⟩
  · intro req hl
    have hfind := findRequest_of_Load _ _ _ hl
    exact ⟨hfind, handledAgainst_of_findRequest c eventType p _ req hfind⟩
  · intro hl hne
    obtain ⟨c0⟩ := c
    cases c0 with
    | nil => exact absurd rfl hne
    | cons e rest =>
      obtain ⟨k, req⟩ := e
      have hfind : findRequest ((k, req) :: rest) p.RequestID = some (k, req) := by
        simp only [findRequest]
        rw [show Load ((k, req) :: rest) p.RequestID = none from hl]
        rfl
      have hmem := findRequest_mem _ _ _ _ hfind
      refine ⟨k, req, hmem, rfl, hfind, handleEvent_fallback_eq _ eventType p k req hfind,
        handledAgainst_of_findRequest _ eventType p k req hfind, ?_⟩
      intro het hcr hfin
      subst het
      exact terminal_removes _ k req p hfind hcr hfin
  · intro hempty
    simp [handleEvent, findRequest, hempty, Load]

/-- Witness of C5: with "a" and "b" pending, a terminal reply for "b" is handled as by
a client whose only entry is "b" and its result is the only effect; a terminal reply
for the unknown id "zz" is applied to one pending entry; on an empty map nothing
happens. -/
theorem correlation_rule_witness :
    ((handleEvent ⟨[("a", newRequest false false), ("b", newRequest false false)]⟩ "reply"
        (some (reply "b" "hi" true true))).2 =
      (handleEvent ⟨[("b", newRequest false false)]⟩ "reply"
        (some (reply "b" "hi" true true))).2) ∧
    (∃ content,
      (handleEvent ⟨[("a", newRequest false false), ("b", newRequest false false)]⟩ "reply"
        (some (reply "b" "hi" true true))).2 = [Effect.result "b" ⟨content, "b"⟩]) ∧
    (∃ k req, Load [("a", newRequest false false), ("b", newRequest false false)] k =
        some req ∧
      Load (handleEvent ⟨[("a", newRequest false false), ("b", newRequest false false)]⟩
        "reply" (some (reply "zz" "hi" true true))).1.pendingRequests k = none) ∧
    handleEvent ⟨[]⟩ "reply" (some (reply "zz" "hi" true true)) = (⟨[]⟩, []) :=
  have hit := ((correlation_rule
    ⟨[("a", newRequest false false), ("b", newRequest false false)]⟩
    "reply" (reply "b" "hi" true true)).1 (newRequest false false) (by decide)).2
  ⟨hit.2.2.1, (hit.2.2.2.2.2.1 rfl rfl rfl).2 rfl,
    match (correlation_rule ⟨[("a", newRequest false false), ("b", newRequest false false)]⟩
      "reply" (reply "zz" "hi" true true)).2.1 (by decide) (by decide) with
    | ⟨k, req, h₁, _, _, _, _, h₂⟩ => ⟨k, req, h₁, h₂ rfl rfl rfl⟩,
    (correlation_rule ⟨[]⟩ "reply" (reply "zz" "hi" true true)).2.2.1 rfl⟩

/-- C6, the code at the failing input: a streaming `Chat` with a callback whose
terminal reply has been handled.  The callback got the content and the "done" chunk,
the pending entry is gone, and nothing was sent on `ResultCh` (nor on `ErrorCh`, which
`client.go` never sends on), so the streaming `select` of `Chat` is released only by
`time.After(timeout)` and `Chat` returns the timeout error. -/
theorem streaming_chat_waits_for_timeout :
    handleEvent ⟨[("r", newRequest true true)]⟩ "reply"
        (some (reply "r" "hi there" true true)) =
      (⟨[]⟩, [Effect.onChunk "r" ⟨"content", "hi there", true⟩,
        Effect.onChunk "r" ⟨"done", "", false⟩]) ∧
    resultChannel "r" (handleEvent ⟨[("r", newRequest true true)]⟩ "reply"
        (some (reply "r" "hi there" true true))).2 = [] ∧
    awaitResponse none (resultChannel "r" (handleEvent ⟨[("r", newRequest true true)]⟩
        "reply" (some (reply "r" "hi there" true true))).2).head? =
      Except.error "请求超时" := by
  refine ⟨by decide, by decide, ?_⟩
  rw [show resultChannel "r" (handleEvent ⟨[("r", newRequest true true)]⟩ "reply"
        (some (reply "r" "hi there" true true))).2 = [] by decide]
  rfl

/-- C7: for a non-empty message list the outbound content is determined by the last
message alone: it is that message's content when the content is a plain string, and
when the content is a list of parts it is the concatenation, in list order and without
separators, of the texts of exactly the parts whose type is "text".  So a list made of
the text part "Hello, ", an image part, a bare string, a part without a type and the
text part "world" gives "Hello, world", whatever precedes the last message. -/
theorem outbound_text_extraction (messages : List Message) (role : String) :
    (∀ s, outboundContent (messages ++ [⟨role, GoAny.str s⟩]) = some s) ∧
    (∀ parts, outboundContent (messages ++ [⟨role, GoAny.slice parts⟩]) =
      some (concatAll (textsOfParts parts))) ∧
    (∀ last, outboundContent (messages ++ [last]) = outboundContent [last]) ∧
    textsOfParts
        [GoAny.map [("type", GoAny.str "text"), ("text", GoAny.str "Hello, ")],
          GoAny.map [("type", GoAny.str "image_url"),
            ("image_url", GoAny.map [("url", GoAny.str "http://x/y.png")])],
          GoAny.str "loose",
          GoAny.map [("text", GoAny.str "untyped")],
          GoAny.map [("text", GoAny.str "world"), ("type", GoAny.str "text")]] =
      ["Hello, ", "world"] ∧
    outboundContent
        [⟨"system", GoAny.str "be brief"⟩,
          ⟨"user", GoAny.slice
            [GoAny.map [("type", GoAny.str "text"), ("text", GoAny.str "Hello, ")],
              GoAny.map [("type", GoAny.str "image_url"),
                ("image_url", GoAny.map [("url", GoAny.str "http://x/y.png")])],
              GoAny.str "loose",
              GoAny.map [("text", GoAny.str "untyped")],
              GoAny.map [("text", GoAny.str "world"), ("type", GoAny.str "text")]]⟩] =
      some "Hello, world" ∧
    outboundContent [⟨"user", GoAny.str "first"⟩, ⟨"user", GoAny.str "hi"⟩] = some "hi" := by
  refine ⟨fun s => ?_, fun parts => ?_, fun last => ?_, by decide, by decide, by decide⟩
  · simp [outboundContent, extractContent]
  · simp [outboundContent, extractContent, foldl_appendPart]
  · simp [outboundContent]

/-- C8: with a clock that does not run backwards between the two cache tests,
`GetWsToken` issues no HTTP request if and only if a non-empty token is cached and its
expiry is strictly more than 30 seconds after the first clock reading; it then returns
exactly the cached token with a nil error and leaves the service unchanged; otherwise
it issues exactly one request.  So a token returned from the cache has more than 30
seconds of remaining lifetime. -/
theorem token_cache_fast_path (s : Service) (now₁ now₂ now₃ : Int) (http : HttpOutcome)
    (hclock : now₁ ≤ now₂) :
    ((GetWsToken s now₁ now₂ now₃ http).httpCalls = 0 ↔
      (s.cachedToken ≠ "" ∧ 30 * Second < s.expireTime - now₁)) ∧
    ((s.cachedToken ≠ "" ∧ 30 * Second < s.expireTime - now₁) →
      (GetWsToken s now₁ now₂ now₃ http).result = Except.ok s.cachedToken ∧
      (GetWsToken s now₁ now₂ now₃ http).service = s) ∧
    (¬ (s.cachedToken ≠ "" ∧ 30 * Second < s.expireTime - now₁) →
      (GetWsToken s now₁ now₂ now₃ http).httpCalls = 1) := by
  have hfresh : ∀ now, cacheFresh s now = true ↔
      (s.cachedToken ≠ "" ∧ 30 * Second < s.expireTime - now) := by
    intro now
    simp only [cacheFresh, Bool.and_eq_true, decide_eq_true_eq]
    constructor
    · rintro ⟨h1, h2⟩; exact ⟨h1, by omega⟩
    · rintro ⟨h1, h2⟩; exact ⟨h1, by omega⟩
  have hslow : ¬ (s.cachedToken ≠ "" ∧ 30 * Second < s.expireTime - now₁) →
      (GetWsToken s now₁ now₂ now₃ http).httpCalls = 1 := by
    intro hno
    have h1 : ¬ cacheFresh s now₁ = true := fun h => hno ((hfresh now₁).1 h)
    have h2 : ¬ cacheFresh s now₂ = true := by
      intro h
      have := (hfresh now₂).1 h
      exact hno ⟨this.1, by omega⟩
    unfold GetWsToken
    rw [if_neg h1, if_neg h2]
    rcases http with err | ⟨st, err⟩ | ⟨st, err | result⟩
    · rfl
    · rfl
    · rfl
    · rcases result with ⟨tok, _ | e⟩ <;> rfl
  have hfast : (s.cachedToken ≠ "" ∧ 30 * Second < s.expireTime - now₁) →
      GetWsToken s now₁ now₂ now₃ http = ⟨Except.ok s.cachedToken, s, 0⟩ := by
    intro h
    unfold GetWsToken
    rw [if_pos ((hfresh now₁).2 h)]
  refine ⟨⟨fun h0 => ?_, fun h => by rw [hfast h]⟩, fun h => by rw [hfast h]; exact ⟨rfl, rfl⟩,
    hslow⟩
  by_contra hno
  rw [hslow hno] at h0
  exact absurd h0 (by decide)

/-- Witness of C8: a token with 31 seconds left is served from the cache. -/
theorem token_cache_fast_path_witness :
    (GetWsToken ⟨"id", "key", "app", "tok", 31 * Second⟩ 0 1 2
      (HttpOutcome.doError "down")).httpCalls = 0 :=
  (token_cache_fast_path ⟨"id", "key", "app", "tok", 31 * Second⟩ 0 1 2
    (HttpOutcome.doError "down") (by decide)).1.2 (by decide)

/-- C9, the claim as stated fails: the status code is never inspected, so a response
with status 500 whose body decodes to a token and no `Error` is a success, and its
token replaces the cached one. -/
theorem token_refresh_failure_counterexample :
    (GetWsToken ⟨"id", "key", "app", "", 0⟩ 0 0 0
        (HttpOutcome.response 500 (Except.ok ⟨"tok", none⟩))).result = Except.ok "tok" ∧
    (GetWsToken ⟨"id", "key", "app", "", 0⟩ 0 0 0
        (HttpOutcome.response 500 (Except.ok ⟨"tok", none⟩))).service =
      ⟨"id", "key", "app", "tok", 270 * Second⟩ := by
  constructor
  · rfl
  · decide

/-- C9, amended: on the slow path, whatever the status code, a response whose body
cannot be decoded yields a non-nil error, no token, and leaves the cached token and
its expiry unchanged; a decoded body carrying a vendor `Error` yields an error made of
the vendor's code and message and also leaves the cache unchanged; a decoded body
without `Error` is a success whatever the status code. -/
theorem token_refresh_failure (s : Service) (now₁ now₂ now₃ : Int) (status : Nat)
    (h₁ : cacheFresh s now₁ = false) (h₂ : cacheFresh s now₂ = false) :
    (∀ err, (∃ text, (GetWsToken s now₁ now₂ now₃
          (HttpOutcome.response status (Except.error err))).result = Except.error text) ∧
      (GetWsToken s now₁ now₂ now₃
          (HttpOutcome.response status (Except.error err))).service = s) ∧
    (∀ token code message,
      (GetWsToken s now₁ now₂ now₃ (HttpOutcome.response status
          (Except.ok ⟨token, some ⟨code, message⟩⟩))).result =
        Except.error ("API错误: " ++ code ++ " - " ++ message) ∧
      (GetWsToken s now₁ now₂ now₃ (HttpOutcome.response status
          (Except.ok ⟨token, some ⟨code, message⟩⟩))).service = s) ∧
    (∀ token,
      (GetWsToken s now₁ now₂ now₃ (HttpOutcome.response status
          (Except.ok ⟨token, none⟩))).result = Except.ok token) := by
  have hn1 : ¬ cacheFresh s now₁ = true := by rw [h₁]; decide
  have hn2 : ¬ cacheFresh s now₂ = true := by rw [h₂]; decide
  refine ⟨fun err => ?_, fun token code message => ?_, fun token => ?_⟩
  · unfold GetWsToken
    rw [if_neg hn1, if_neg hn2]
    exact ⟨⟨_, rfl⟩, rfl⟩
  · unfold GetWsToken
    rw [if_neg hn1, if_neg hn2]
    exact ⟨rfl, rfl⟩
  · unfold GetWsToken
    rw [if_neg hn1, if_neg hn2]

/-- Witness of C9: an expired cached token and a vendor error payload. -/
theorem token_refresh_failure_witness :
    (GetWsToken ⟨"id", "key", "app", "old", 5 * Second⟩ 0 0 0 (HttpOutcome.response 200
        (Except.ok ⟨"", some ⟨"AuthFailure", "bad key"⟩⟩))).result =
      Except.error ("API错误: " ++ "AuthFailure" ++ " - " ++ "bad key") ∧
    (GetWsToken ⟨"id", "key", "app", "old", 5 * Second⟩ 0 0 0 (HttpOutcome.response 200
        (Except.ok ⟨"", some ⟨"AuthFailure", "bad key"⟩⟩))).service =
      ⟨"id", "key", "app", "old", 5 * Second⟩ :=
  (token_refresh_failure ⟨"id", "key", "app", "old", 5 * Second⟩ 0 0 0 200
    (by decide) (by decide)).2.1 "" "AuthFailure" "bad key"

/-- C10, the code at the failing input: the token `a"b` is inserted unescaped, so the
frame is `40` followed by a text that is not JSON, and decoding it does not give the
token back; a token of letters round-trips. -/
theorem auth_frame_unescaped_token :
    authMsg "a\"b" = "40\x7b\"token\":\"a\"b\"\x7d" ∧
    decodeAuthFrame (authMsg "a\"b") = none ∧
    decodeAuthFrame (authMsg "abc") = some "abc" := by
  refine ⟨by decide, by decide, by decide⟩

/-- C11: frame classification is total and unambiguous.  For every inbound frame at
most one of the five tests (open, ack, error, ping, event) holds, so classification
does not depend on the order in which the tests are tried, and both read loops do what
the branch of the frame's kind says whatever that order; a frame matching no test is
dropped by both loops with no state change; the slices `msg[2:]` of the error and the
event branch are within bounds; neither loop fails on any frame. -/
theorem frame_classification (msg : Frame) :
    (∀ k k' : FrameKind, k.test msg = true → k'.test msg = true → k = k') ∧
    (∀ order order' : List FrameKind, (∀ k, k ∈ order ↔ k ∈ order') →
      classifyWith order msg = classifyWith order' msg) ∧
    (∀ order : List FrameKind, (∀ k, k ∈ order) →
      (∀ wsToken writeErr s, handshakeFrame wsToken writeErr s msg =
        handshakeBranch wsToken writeErr s msg (classifyWith order msg)) ∧
      (∀ unmarshal s, handleMessagesFrame unmarshal s msg =
        handleMessagesBranch unmarshal s msg (classifyWith order msg))) ∧
    ((∀ k : FrameKind, k.test msg = false) →
      (∀ wsToken writeErr s,
        handshakeFrame wsToken writeErr s msg = some (s, Next.read)) ∧
      (∀ unmarshal s, handleMessagesFrame unmarshal s msg = some s)) ∧
    (isErrorFrame msg = true → sliceFrame msg 2 = some (msg.drop 2)) ∧
    (isEventFrame msg = true → sliceFrame msg 2 = some (msg.drop 2)) ∧
    (∀ wsToken writeErr s, (handshakeFrame wsToken writeErr s msg).isSome = true) ∧
    (∀ unmarshal s, (handleMessagesFrame unmarshal s msg).isSome = true) := by
  refine ⟨tests_exclusive msg, classifyWith_order msg, fun order hall => ?_, fun hnone => ?_,
    sliceFrame_two msg [52, 52] rfl, sliceFrame_two msg [52, 50] rfl,
    handshakeFrame_isSome msg,
    handleMessagesFrame_isSome msg⟩
  · exact ⟨handshakeFrame_branch msg order hall, handleMessagesFrame_branch msg order hall⟩
  · have h1 : ¬ isOpenFrame msg = true := by
      rw [show isOpenFrame msg = false from hnone FrameKind.openPacket]; decide
    have h2 : ¬ isAckFrame msg = true := by
      rw [show isAckFrame msg = false from hnone FrameKind.ack]; decide
    have h3 : ¬ isErrorFrame msg = true := by
      rw [show isErrorFrame msg = false from hnone FrameKind.connectError]; decide
    have h4 : ¬ isPingFrame msg = true := by
      rw [show isPingFrame msg = false from hnone FrameKind.ping]; decide
    have h5 : ¬ isEventFrame msg = true := by
      rw [show isEventFrame msg = false from hnone FrameKind.event]; decide
    constructor
    · intro wsToken writeErr s
      unfold handshakeFrame
      rw [if_neg h1, if_neg h2, if_neg h3]
    · intro unmarshal s
      unfold handleMessagesFrame
      rw [if_neg h4, if_neg h5]

/-- Witness of C11: the error frame "44x", classified in two orders; its detail is "x";
the frame "9" matches no test and is dropped by the handshake loop. -/
theorem frame_classification_witness :
    classifyWith [FrameKind.ack, FrameKind.connectError] [52, 52, 120] =
      classifyWith [FrameKind.connectError, FrameKind.ack] [52, 52, 120] ∧
    sliceFrame [52, 52, 120] 2 = some [120] ∧
    handshakeFrame "tok" none ⟨⟨[]⟩, false, [], [], []⟩ [57] =
      some (⟨⟨[]⟩, false, [], [], []⟩, Next.read) :=
  ⟨(frame_classification [52, 52, 120]).2.1 [FrameKind.ack, FrameKind.connectError]
      [FrameKind.connectError, FrameKind.ack] (fun k => by cases k <;> decide),
    (frame_classification [52, 52, 120]).2.2.2.2.1 (by decide),
    ((frame_classification [57]).2.2.2.1 (fun k => by cases k <;> decide)).1 "tok" none
      ⟨⟨[]⟩, false, [], [], []⟩⟩

/-- C12: streamed deltas reassemble the full text.  For a fresh streaming request with a
callback, pending under `k`, and rated replies applied to it, none final except possibly
the last, in which every non-empty content starts with the previous non-empty content:
the texts of the content chunks passed to `OnChunk`, concatenated in order, are the last
non-empty cumulative content; every content chunk goes to that request and has a
non-empty text; after every step the request's `FullContent` is the last non-empty
content so far and its `LastContent` equals it; and while no final reply has been
handled the pending entry is that request. -/
theorem streamed_deltas_reassemble (c : Client) (k : String) (evs : List Payload)
    (hl : Load c.pendingRequests k = some (newRequest true true))
    (hroute : ∀ e ∈ evs,
      targetKey c.pendingRequests e.RequestID = some k ∧ e.CanRating = true)
    (hfinal : ∀ e ∈ evs.dropLast, e.IsFinal = false)
    (hcum : cumulative "" evs = true) :
    concatAll (contentTexts (handleEvents c (replies evs)).2) = latestContent "" evs ∧
    (∀ kc ∈ contentChunks (handleEvents c (replies evs)).2,
      kc.1 = k ∧ kc.2.Content ≠ "") ∧
    (∀ pre suf, evs = pre ++ suf →
      (applyReplies (newRequest true true) k pre).1.FullContent = latestContent "" pre ∧
      (applyReplies (newRequest true true) k pre).1.LastContent =
        (applyReplies (newRequest true true) k pre).1.FullContent ∧
      ((∀ e ∈ pre, e.IsFinal = false) →
        Load (handleEvents c (replies pre)).1.pendingRequests k =
          some (applyReplies (newRequest true true) k pre).1)) := by
  have hchunks := contentChunks_run evs c k (newRequest true true) hl hroute hfinal
  obtain ⟨_, h2, h3, h4⟩ := applyReplies_run k evs (newRequest true true) rfl rfl rfl
    (fun e he => (hroute e he).2) hcum
  refine ⟨?_, ?_, ?_⟩
  · have htexts : contentTexts (handleEvents c (replies evs)).2 =
        contentTexts (applyReplies (newRequest true true) k evs).2 := by
      unfold contentTexts; rw [hchunks]
    have h2' : (applyReplies (newRequest true true) k evs).1.FullContent =
        latestContent "" evs := h2
    have h3' : "" ++ concatAll (contentTexts (applyReplies (newRequest true true) k evs).2) =
        (applyReplies (newRequest true true) k evs).1.FullContent := h3
    rw [htexts, ← h2', ← h3']
    simp
  · rw [hchunks]; exact h4
  · intro pre suf hsplit
    have hroute' : ∀ e ∈ pre,
        targetKey c.pendingRequests e.RequestID = some k ∧ e.CanRating = true :=
      fun e he => hroute e (by rw [hsplit]; exact List.mem_append_left _ he)
    have hcum' : cumulative "" pre = true :=
      cumulative_append pre suf "" (by rw [← hsplit]; exact hcum)
    obtain ⟨p1, p2, _, _⟩ := applyReplies_run k pre (newRequest true true) rfl rfl rfl
      (fun e he => (hroute' e he).2) hcum'
    exact ⟨p2, p1, fun hnf => pending_run pre c k _ hl hroute' hnf⟩

/-- Witness of C12: "Hello", an empty reply, then the final "Hello, world". -/
theorem streamed_deltas_reassemble_witness :
    concatAll (contentTexts (handleEvents ⟨[("r", newRequest true true)]⟩
      (replies [reply "r" "Hello" true false, reply "zz" "" true false,
        reply "r" "Hello, world" true true])).2) =
      latestContent "" [reply "r" "Hello" true false, reply "zz" "" true false,
        reply "r" "Hello, world" true true] :=
  (streamed_deltas_reassemble ⟨[("r", newRequest true true)]⟩ "r"
    [reply "r" "Hello" true false, reply "zz" "" true false,
      reply "r" "Hello, world" true true]
    (by decide) (by decide) (by decide) (by decide)).1

end ADP
